import Mathlib

/-!
Shallow embedding of a golf-statistics ETL pipeline
(`src/download_stats.py`, `src/parse_stats.py`, `src/build_master.py`).

Raw CSV cells are modelled as `Option String` (a missing cell is `none`);
pandas numeric cells as `Option ℚ` (`none` models NaN / missing, which is
what `dropna` / `notna` observe; the distinction between a parse failure
and a literal NaN never reaches any downstream observation point).
File reading itself is I/O, so the parsing stage is embedded from the
point where the raw table `df_raw` is in memory.
-/

namespace Golf

/-- Python `needle in hay` on strings: substring containment. -/
def substrOf (needle hay : String) : Bool :=
  (List.range (hay.data.length + 1)).any fun i =>
    needle.data.isPrefixOf (hay.data.drop i)

/-- Python `str.lower()` (ASCII case folding suffices for this data). -/
def toLowerStr (s : String) : String :=
  String.mk (s.data.map Char.toLower)

/-- Python `str.strip()`: drop leading and trailing whitespace. -/
def trimStr (s : String) : String :=
  String.mk
    (((s.data.dropWhile Char.isWhitespace).reverse.dropWhile
        Char.isWhitespace).reverse)

/-- Worker for Python `str.split()` with no argument: cut at whitespace
runs, drop empty pieces; `acc` holds the current word reversed. -/
def splitWsAux : List Char → List Char → List (List Char)
  | [], acc => if acc.isEmpty then [] else [acc.reverse]
  | c :: cs, acc =>
    if c.isWhitespace then
      if acc.isEmpty then splitWsAux cs [] else acc.reverse :: splitWsAux cs []
    else splitWsAux cs (c :: acc)

/-- Python `str.split()` with no argument. -/
def pySplitWs (s : String) : List String :=
  (splitWsAux s.data []).map String.mk

/-- Python `" ".join(words)`. -/
def joinSpace (ws : List String) : String :=
  String.mk ((ws.map String.data).intersperse [' ']).flatten

/-- `normalize_col_name` from `parse_stats.py`:
`" ".join(col.strip().lower().split())` — lowercase, strip, collapse
internal whitespace. -/
def normalize_col_name (col : String) : String :=
  joinSpace (pySplitWs (toLowerStr (trimStr col)))

/-- One entry of `STAT_SPEC`: the output column name and the hint
substrings used to locate the value column. -/
structure StatSpec where
  output_col : String
  hints : List String
deriving DecidableEq, Repr

/-- `STAT_SPEC` from `parse_stats.py`, in dict insertion order. -/
def STAT_SPEC : List (String × StatSpec) :=
  [ ("sg_total", ⟨"sg_total", ["mean", "avg", "average", "sg:total"]⟩),
    ("sg_ott", ⟨"sg_off_the_tee", ["mean", "avg", "average"]⟩),
    ("sg_app", ⟨"sg_approach", ["mean", "avg", "average"]⟩),
    ("sg_arg", ⟨"sg_around_green", ["mean", "avg", "average"]⟩),
    ("sg_putt", ⟨"sg_putting", ["mean", "avg", "average"]⟩),
    ("driving_distance", ⟨"driving_distance", ["avg", "average", "distance"]⟩),
    ("driving_accuracy", ⟨"driving_accuracy", ["%", "pct", "accuracy"]⟩),
    ("greens_in_regulation", ⟨"greens_in_regulation", ["%", "pct", "greens in reg"]⟩),
    ("scoring_average", ⟨"scoring_average", ["avg", "average", "mean"]⟩),
    ("money_earned", ⟨"money_earned", ["money", "earnings", "$", "amount"]⟩),
    ("fedex_rank", ⟨"final_season_rank",
      ["rank", "points", "fedexcup", "strokes", "finish position"]⟩) ]

/-- `STAT_SPEC.get(stat_name)`: first entry with the given key. -/
def lookupSpec (stat_name : String) : Option StatSpec :=
  (STAT_SPEC.find? (fun p => p.1 == stat_name)).map (·.2)

/-- A raw CSV table: column labels plus rows of optional string cells,
aligned with the columns by position.  Column labels are assumed
distinct (pandas de-duplicates duplicate headers on read). -/
structure RawTable where
  cols : List String
  rows : List (List (Option String))
deriving DecidableEq, Repr

/-- `df[c]` for one row: the cell under the first column labelled `c`. -/
def RawTable.cell (t : RawTable) (row : List (Option String)) (c : String) :
    Option String :=
  (row.get? (t.cols.indexOf c)).join

/-- The whole column of cells under label `c`. -/
def RawTable.colCells (t : RawTable) (c : String) : List (Option String) :=
  t.rows.map fun r => t.cell r c

/-- `find_player_name_column` from `parse_stats.py`.  The source appends
`(0, col)` candidates for columns containing `player` but not `id` and
`(1, col)` for other columns containing `name`, in column order, then
stably sorts by priority and takes the head; that equals concatenating
the priority-0 sublist before the priority-1 sublist.  Fallback on the
first column; `none` models the `IndexError` on a table with no columns. -/
def find_player_name_column (t : RawTable) : Option String :=
  let p0 := t.cols.filter fun c =>
    substrOf "player" (normalize_col_name c) &&
      !substrOf "id" (normalize_col_name c)
  let p1 := t.cols.filter fun c =>
    !(substrOf "player" (normalize_col_name c) &&
        !substrOf "id" (normalize_col_name c)) &&
      substrOf "name" (normalize_col_name c)
  match p0 ++ p1 with
  | c :: _ => some c
  | [] => t.cols.head?

/-- Python `str(x)` applied to a possibly-missing pandas cell:
`astype(str)` renders a missing value as the string `"nan"`. -/
def pyStr : Option String → String
  | none => "nan"
  | some s => s

/-- The chained `.str.replace` calls: delete every `,`, `$` and `%`. -/
def stripChars (s : String) : String :=
  String.mk (s.data.filter fun c => !(c == ',' || c == '$' || c == '%'))

/-- Value of a digit string. -/
def digitsVal (l : List Char) : Nat :=
  l.foldl (fun a c => a * 10 + (c.toNat - 48)) 0

/-- Decimal literal parser modelling `pd.to_numeric` on the cleaned
string: optional sign, digits, optional fractional part, at least one
digit overall.  Anything else — including the string `"nan"`, which
`to_numeric` turns into NaN, i.e. into a missing value for every
downstream `dropna` / `notna` observation — yields `none`.
(Scientific notation and infinities are not modelled.) -/
def parseDec (s : String) : Option ℚ :=
  let step1 : Bool × List Char :=
    match s.data with
    | '-' :: t => (true, t)
    | '+' :: t => (false, t)
    | cs => (false, cs)
  let neg := step1.1
  let cs := step1.2
  let ip := cs.takeWhile Char.isDigit
  let rest := cs.dropWhile Char.isDigit
  let mag : Option ℚ :=
    match rest with
    | [] => if ip.isEmpty then none else some (digitsVal ip : ℚ)
    | '.' :: fr =>
      let fp := fr.takeWhile Char.isDigit
      if (fr.dropWhile Char.isDigit).isEmpty && !(ip.isEmpty && fp.isEmpty) then
        some ((digitsVal ip : ℚ) + (digitsVal fp : ℚ) / ((10 : ℚ) ^ fp.length))
      else none
    | _ => none
  mag.map fun v => if neg then -v else v

/-- Numeric coercion of one raw cell, as in `parse_stats.py`:
`pd.to_numeric(cell.astype(str).str.replace(...).str.strip(), errors="coerce")`,
with the resulting NaN-or-number collapsed to `Option ℚ`. -/
def coerceCell (c : Option String) : Option ℚ :=
  parseDec (trimStr (stripChars (pyStr c)))

/-- Whether some hint substring occurs in the normalized column name. -/
def matchesHint (hints : List String) (c : String) : Bool :=
  hints.any fun h => substrOf h (normalize_col_name c)

/-- `bad_keywords` from the fallback branch of `find_value_column`. -/
def bad_keywords : List String :=
  ["rank", "this week", "last week", "event", "tournament", "round", "movement"]

/-- How many cells of column `c` survive numeric coercion
(`s.notna().sum()` in the fallback loop). -/
def numericCount (t : RawTable) (c : String) : Nat :=
  (t.colCells c).countP fun cell => (coerceCell cell).isSome

/-- `numeric_candidates.sort(key=count, reverse=True)` is a stable
descending sort followed by taking the head, i.e. the first candidate
(in column order) with the maximal count. -/
def pickMostNumeric : List (String × Nat) → Option String
  | [] => none
  | x :: xs => some ((xs.foldl (fun best y => if best.2 < y.2 then y else best) x).1)

/-- `find_value_column` from `parse_stats.py`.  The hint phase iterates
the columns (dict insertion order = column order) in the outer loop and
the hints in the inner loop, so it returns the first column whose
normalized name contains any hint.  Otherwise the numeric-density
fallback runs. -/
def find_value_column (t : RawTable) (stat_name : String) : Except String String :=
  match lookupSpec stat_name with
  | none => .error ("No STAT_SPEC entry for stat_name=" ++ stat_name)
  | some spec =>
    let hints := spec.hints.map toLowerStr
    match t.cols.find? (matchesHint hints) with
    | some c => .ok c
    | none =>
      match find_player_name_column t with
      | none => .error "no columns"
      | some player_col =>
        let cands := (t.cols.filter fun c =>
            !(c == player_col) &&
              !(bad_keywords.any fun b => substrOf b (normalize_col_name c))).filterMap
          fun c =>
            let n := numericCount t c
            if 0 < n then some (c, n) else none
        match pickMostNumeric cands with
        | none =>
          .error ("Could not identify a numeric value column for stat " ++ stat_name)
        | some best => .ok best

/-- The column-wise work of `parse_one_file` before the `dropna`: for
each raw row, the stripped stringified player cell and the coerced
value cell. -/
def prelimOf (t : RawTable) (player_col value_col : String) :
    List (String × Option ℚ) :=
  t.rows.map fun r =>
    (trimStr (pyStr (t.cell r player_col)), coerceCell (t.cell r value_col))

/-- One row of a tidy intermediate frame after the `dropna`:
the value survived coercion, the player name is a (never-null) string. -/
structure TidyRow where
  year : Int
  player_name : String
  value : ℚ
deriving DecidableEq, Repr

/-- `out.drop_duplicates(subset=["player_name"])`: keep the first row
for each player name. -/
def dropDupNames : List TidyRow → List TidyRow
  | [] => []
  | r :: rs => r :: dropDupNames (rs.filter fun x => x.player_name != r.player_name)
termination_by l => l.length
decreasing_by
  simp only [List.length_cons]
  exact Nat.lt_succ_of_le (List.length_filter_le _ _)

/-- The core of `parse_one_file` from `parse_stats.py`, from the point
where the raw table has been read (the filename has already been split
into `stat_name` and `year`; CSV reading is I/O).  Builds the
(year, player, value) frame, drops rows with missing value (the
`player_name` column is a string column after `astype(str)`, so its
half of the `dropna` never fires), then de-duplicates player names. -/
def parse_one_file_core (stat_name : String) (year : Int) (t : RawTable) :
    Except String (List TidyRow) :=
  match lookupSpec stat_name with
  | none => .error ("stat_name " ++ stat_name ++ " not found in STAT_SPEC.")
  | some _ =>
    match find_player_name_column t with
    | none => .error "no columns"
    | some player_col =>
      match find_value_column t stat_name with
      | .error e => .error e
      | .ok value_col =>
        let filtered := (prelimOf t player_col value_col).filterMap fun p =>
          p.2.map fun v => TidyRow.mk year p.1 v
        .ok (dropDupNames filtered)

/-! ## `build_master.py` -/

/-- A pandas numeric cell: `none` models NaN / missing. -/
abbrev Cell := Option ℚ

/-- A tidy intermediate CSV as stored on disk: its header and its rows
(year, player_name, value).  `player_name` is `none` when the cell reads
back as missing. -/
structure StoredTidy where
  cols : List String
  rows : List (Int × Option String × Cell)
deriving DecidableEq, Repr

/-- A loaded per-stat frame `df[["year", "player_name", col_name]]` after
the `notna` filter on `player_name`: names are plain strings. -/
structure LoadedFrame where
  col : String
  rows : List (Int × String × Cell)
deriving DecidableEq, Repr

/-- Errors `load_stat_for_year` can raise; both kinds are caught by
`build_for_year` and recorded as a skipped stat. -/
inductive LoadErr
  | fileNotFound
  | missingColumns (which : String)
deriving DecidableEq, Repr

/-- `load_stat_for_year` from `build_master.py`, with the file system
abstracted to the optional stored file for this stat and year.  A missing
file raises; an empty file (before or after dropping rows whose
`player_name` is missing) returns `none`; missing expected columns
raise. -/
def load_stat_for_year (file? : Option StoredTidy) (col_name : String) :
    Except LoadErr (Option LoadedFrame) :=
  match file? with
  | none => .error .fileNotFound
  | some f =>
    if f.rows.isEmpty then .ok none
    else if !(f.cols.contains "year") || !(f.cols.contains "player_name") then
      .error (.missingColumns "year/player_name")
    else if !(f.cols.contains col_name) then
      .error (.missingColumns col_name)
    else
      let rows := f.rows.filterMap fun r => r.2.1.map fun n => (r.1, n, r.2.2)
      if rows.isEmpty then .ok none
      else .ok (some ⟨col_name, rows⟩)

/-- `STAT_COLUMNS` from `build_master.py`, in dict insertion order. -/
def STAT_COLUMNS : List (String × String) :=
  [ ("sg_total", "sg_total"),
    ("sg_ott", "sg_off_the_tee"),
    ("sg_app", "sg_approach"),
    ("sg_arg", "sg_around_green"),
    ("sg_putt", "sg_putting"),
    ("driving_distance", "driving_distance"),
    ("driving_accuracy", "driving_accuracy"),
    ("greens_in_regulation", "greens_in_regulation"),
    ("scoring_average", "scoring_average"),
    ("money_earned", "money_earned"),
    ("fedex_rank", "final_season_rank") ]

/-- The tidy files available for one year: stat name to stored file. -/
abbrev TidyFiles := String → Option StoredTidy

/-- The loading loop of `build_for_year`: frames, loaded stats, skipped
stats (load raised) and empty stats (no data rows), each in
`STAT_COLUMNS` order. -/
def collectFrames (files : TidyFiles) :
    List LoadedFrame × List String × List String × List String :=
  STAT_COLUMNS.foldl
    (fun acc p =>
      match load_stat_for_year (files p.1) p.2 with
      | .error _ => (acc.1, acc.2.1, acc.2.2.1 ++ [p.1], acc.2.2.2)
      | .ok none => (acc.1, acc.2.1, acc.2.2.1, acc.2.2.2 ++ [p.1])
      | .ok (some fr) => (acc.1 ++ [fr], acc.2.1 ++ [p.1], acc.2.2.1, acc.2.2.2))
    ([], [], [], [])

/-- One row of a merged season frame: the join keys plus an association
list from value-column name to cell. -/
structure MRow where
  year : Int
  player_name : String
  vals : List (String × Cell)
deriving DecidableEq, Repr

/-- A merged frame: value columns (the full column list is
`year :: player_name :: cols`) and rows. -/
structure Merged where
  cols : List String
  rows : List MRow
deriving DecidableEq, Repr

/-- Full pandas column list of a merged frame. -/
def Merged.allCols (m : Merged) : List String :=
  "year" :: "player_name" :: m.cols

/-- Look a value column up in a row (first binding wins; `none` when the
column is absent, which is exactly what the null back-fill produces). -/
def lookupCell (vals : List (String × Cell)) (c : String) : Cell :=
  ((vals.find? fun p => p.1 == c).map (·.2)).join

/-- Join key of a merged row. -/
def keyOf (r : MRow) : Int × String := (r.year, r.player_name)

/-- Ascending lexicographic order on (year, player_name), the order
pandas uses both for outer-merge keys and for the final
`sort_values(["year", "player_name"])`. -/
def keyLe (a b : Int × String) : Prop :=
  a.1 < b.1 ∨ (a.1 = b.1 ∧ a.2 ≤ b.2)

instance : DecidableRel keyLe := fun a b => by
  unfold keyLe; infer_instance

/-- The sorted union of join keys of a `how="outer"` merge (pandas sorts
outer-join keys lexicographically; duplicates collapse to key groups). -/
def keyDedupSorted (ks : List (Int × String)) : List (Int × String) :=
  List.insertionSort keyLe ks.dedup

/-- One step of the left fold of outer merges
(`pd.merge(left, right, on=["year", "player_name"], how="outer")`).
For each key: matching rows on both sides pair up (cross product on
duplicate keys); a key present on one side only keeps that side's row
with the other side's value columns filled with missing. -/
def mergeOuter (left : Merged) (f : LoadedFrame) : Merged :=
  let ks := keyDedupSorted
    (left.rows.map keyOf ++ f.rows.map fun r => (r.1, r.2.1))
  let rows := ks.flatMap fun k =>
    let ls := left.rows.filter fun r => keyOf r = k
    let rs := f.rows.filter fun r => (r.1, r.2.1) = k
    match ls, rs with
    | [], rs => rs.map fun r =>
        ⟨r.1, r.2.1, (left.cols.map fun c => (c, (none : Cell))) ++ [(f.col, r.2.2)]⟩
    | ls, [] => ls.map fun r => { r with vals := r.vals ++ [(f.col, (none : Cell))] }
    | ls, rs => ls.flatMap fun r =>
        rs.map fun q => { r with vals := r.vals ++ [(f.col, q.2.2)] }
  ⟨left.cols ++ [f.col], rows⟩

/-- A single frame viewed as a merged frame (the seed of the fold:
Python's `reduce` with no initializer starts from the first frame). -/
def initMerged (f : LoadedFrame) : Merged :=
  ⟨[f.col], f.rows.map fun r => ⟨r.1, r.2.1, [(f.col, r.2.2)]⟩⟩

/-- `reduce(lambda l, r: pd.merge(...), frames)`; `none` when the frame
list is empty (in the source that point is unreachable because
`build_for_year` raises first). -/
def reduceMerge : List LoadedFrame → Option Merged
  | [] => none
  | f :: fs => some (fs.foldl mergeOuter (initMerged f))

/-- NaN-propagating sum of the three strokes-gained components. -/
def optAdd3 : Cell → Cell → Cell → Cell
  | some a, some b, some c => some (a + b + c)
  | _, _, _ => none

/-- The tee-to-green step of `build_for_year`: when all three component
columns are present after the merge, append `sg_tee_to_green` as their
row-wise sum; otherwise leave the frame unchanged (warning only). -/
def addTeeToGreen (m : Merged) : Merged :=
  if "sg_off_the_tee" ∈ m.cols ∧ "sg_approach" ∈ m.cols ∧
      "sg_around_green" ∈ m.cols then
    ⟨m.cols ++ ["sg_tee_to_green"],
      m.rows.map fun r =>
        { r with vals := r.vals ++
            [("sg_tee_to_green",
              optAdd3 (lookupCell r.vals "sg_off_the_tee")
                (lookupCell r.vals "sg_approach")
                (lookupCell r.vals "sg_around_green"))] }⟩
  else m

/-- `expected_cols` from `build_for_year`. -/
def expected_cols : List String :=
  [ "year", "player_name", "sg_total", "sg_off_the_tee", "sg_approach",
    "sg_around_green", "sg_putting", "driving_distance", "driving_accuracy",
    "greens_in_regulation", "scoring_average", "money_earned",
    "final_season_rank", "sg_tee_to_green" ]

/-- The value columns of the fixed schema (all of `expected_cols` except
the two join keys, which every merged frame always carries). -/
def expectedValueCols : List String := expected_cols.drop 2

/-- Order on rows for the final `sort_values(["year", "player_name"])`. -/
def rowLe (a b : MRow) : Prop := keyLe (keyOf a) (keyOf b)

instance : DecidableRel rowLe := fun a b => by
  unfold rowLe; infer_instance

/-- The schema-fixing tail of `build_for_year`: back-fill every expected
column that the merge did not produce with missing values, select the
columns in `expected_cols` order (assignment-then-reindex equals
projection with a missing default), and sort by (year, player_name). -/
def finalize (m : Merged) : Merged :=
  let withTtg := addTeeToGreen m
  ⟨expectedValueCols,
    List.insertionSort rowLe
      (withTtg.rows.map fun r =>
        { r with vals := expectedValueCols.map fun c => (c, lookupCell r.vals c) })⟩

/-- The error raised when no stat yields data for a year: the source
formats `year`, `stats_skipped` and `stats_empty` into the `ValueError`
message. -/
structure BuildErr where
  year : Int
  skipped : List String
  empty : List String
deriving DecidableEq, Repr

/-- `build_for_year` from `build_master.py`: load every configured stat
(missing / failing loads are skipped, empty ones recorded), raise when
no frame has data, otherwise fold outer merges, derive tee-to-green,
fix the schema and sort. -/
def build_for_year (files : TidyFiles) (year : Int) : Except BuildErr Merged :=
  let c := collectFrames files
  match reduceMerge c.1 with
  | none => .error ⟨year, c.2.2.1, c.2.2.2⟩
  | some m => .ok (finalize m)

/-! ## The driver (`main` of `build_master.py`) and the tidy round trip -/

/-- `sorted(set(years))`: distinct years in ascending order. -/
def sortedYears (ys : List Int) : List Int :=
  List.insertionSort (· ≤ ·) ys.dedup

/-- The per-stat stored files for every year. -/
abbrev YearFiles := Int → TidyFiles

/-- The year loop of `main` in `build_master.py`: build each year in
order, collecting the per-year frames; an exception from
`build_for_year` is not caught and aborts the run. -/
def runYears (files : YearFiles) : List Int → Except BuildErr (List Merged)
  | [] => .ok []
  | y :: ys =>
    match build_for_year (files y) y with
    | .error e => .error e
    | .ok m =>
      match runYears files ys with
      | .error e => .error e
      | .ok ms => .ok (m :: ms)

/-- `pd.concat(all_years, ignore_index=True)` written to
`master_player_seasons.csv`: the per-year frames (all carrying the same
fixed schema) stacked row-wise over `sorted(set(years))`. -/
def masterAllYears (files : YearFiles) (years : List Int) :
    Except BuildErr Merged :=
  match runYears files (sortedYears years) with
  | .error e => .error e
  | .ok ms => .ok ⟨expectedValueCols, (ms.map Merged.rows).flatten⟩

/-- Strings that `pd.read_csv` reads back as missing values (the
relevant subset of pandas' default NA markers; in particular the
`"nan"` that `astype(str)` produced for a missing player cell). -/
def csvNaStrings : List String :=
  ["", "nan", "NaN", "NA", "N/A", "NULL", "null", "None"]

/-- CSV round trip of a written player-name string: read back as
missing exactly when it is one of pandas' NA markers. -/
def csvReadStr (s : String) : Option String :=
  if csvNaStrings.contains s then none else some s

/-- The stored tidy file that `main` of `parse_stats.py` writes for a
successful parse and `build_master.py` later reads back: header
`year, player_name, <output_col>`; numeric cells survive the round trip,
player names come back through the NA-marker filter. -/
def storedOfTidy (output_col : String) (rows : List TidyRow) : StoredTidy :=
  ⟨["year", "player_name", output_col],
    rows.map fun r => (r.year, csvReadStr r.player_name, some r.value)⟩

/-! ## `download_stats.py` -/

/-- An HTTP response: status code and body bytes. -/
structure HttpResponse where
  status_code : Nat
  content : List Nat
deriving DecidableEq, Repr

/-- The raw-file area of the file system: path to optional byte content. -/
abbrev FileSystem := String → Option (List Nat)

/-- `resp.raise_for_status()`: raises `HTTPError` exactly for client and
server error codes (400–599); `requests` treats everything below 400 as
ok. -/
def raise_for_status (r : HttpResponse) : Except String Unit :=
  if 400 ≤ r.status_code ∧ r.status_code < 600 then .error "HTTPError"
  else .ok ()

/-- `out_path.write_bytes(resp.content)`. -/
def writeFile (fs : FileSystem) (path : String) (content : List Nat) :
    FileSystem :=
  fun p => if p = path then some content else fs p

/-- The raw path `data/raw/{stat_name}_{year}.csv`. -/
def rawPath (stat_name : String) (year : Int) : String :=
  "data/raw/" ++ stat_name ++ "_" ++ toString year ++ ".csv"

/-- `download_stat_csv` from `download_stats.py`, with the network
abstracted to the response the GET returns: check the status first and
raise without touching the file system; on success write the body
verbatim to the raw path. -/
def download_stat_csv (stat_name : String) (year : Int) (resp : HttpResponse)
    (fs : FileSystem) : FileSystem × Except String Unit :=
  match raise_for_status resp with
  | .error e => (fs, .error e)
  | .ok _ => (writeFile fs (rawPath stat_name year) resp.content, .ok ())

/-! ## Observations used in the statements of the verified properties -/

/-- Whether `load_stat_for_year` yields a frame with data for this stat. -/
def isLoaded (files : TidyFiles) (p : String × String) : Bool :=
  match load_stat_for_year (files p.1) p.2 with
  | .ok (some _) => true
  | _ => false

/-- Whether `load_stat_for_year` raises for this stat (missing file or
any other load failure), i.e. the stat lands in `stats_skipped`. -/
def isSkipped (files : TidyFiles) (p : String × String) : Bool :=
  match load_stat_for_year (files p.1) p.2 with
  | .error _ => true
  | _ => false

/-- Whether the stat's tidy file loads but has no data rows, i.e. the
stat lands in `stats_empty`. -/
def isEmptyStat (files : TidyFiles) (p : String × String) : Bool :=
  match load_stat_for_year (files p.1) p.2 with
  | .ok none => true
  | _ => false

/-- The frame `load_stat_for_year` produces for this stat, when any. -/
def loadedFrame (files : TidyFiles) (p : String × String) : Option LoadedFrame :=
  match load_stat_for_year (files p.1) p.2 with
  | .ok (some fr) => some fr
  | _ => none

/-- The value a loaded per-stat frame holds for a join key: the value of
its first row with that key, `none` when the key is absent. -/
def frameVal (f : LoadedFrame) (k : Int × String) : Cell :=
  ((f.rows.find? fun r => (r.1, r.2.1) = k).map (·.2.2)).join

/-- The rows `build_for_year` produces for one year (empty on failure);
used to state what the all-years concatenation is made of. -/
def yearRows (files : YearFiles) (y : Int) : List MRow :=
  match build_for_year (files y) y with
  | .ok m => m.rows
  | .error _ => []

/-! ## Theorems -/

/-- C10: if the GET returns a status for which `raise_for_status`
raises (400–599; `requests` counts everything below 400 as successful),
`download_stat_csv` raises with the file system untouched — the raw
file is neither created nor modified; on a successful status it writes
the response bytes verbatim to the raw path and touches no other
path. -/
theorem download_atomic (stat_name : String) (year : Int)
    (resp : HttpResponse) (fs : FileSystem) :
    (400 ≤ resp.status_code ∧ resp.status_code < 600 →
      (download_stat_csv stat_name year resp fs).1 = fs ∧
        (download_stat_csv stat_name year resp fs).2 = .error "HTTPError") ∧
    (¬(400 ≤ resp.status_code ∧ resp.status_code < 600) →
      (download_stat_csv stat_name year resp fs).2 = .ok () ∧
        (download_stat_csv stat_name year resp fs).1 (rawPath stat_name year) =
          some resp.content ∧
        ∀ p, p ≠ rawPath stat_name year →
          (download_stat_csv stat_name year resp fs).1 p = fs p) := by
  constructor
  · intro h
    simp [download_stat_csv, raise_for_status, h]
  · intro h
    refine ⟨?_, ?_, ?_⟩ <;>
      simp [download_stat_csv, raise_for_status, h, writeFile]
    intro p hp
    simp [hp]

/-- Witness for C10: a 404 leaves an empty file system unchanged and
errors; a 200 writes the body to the raw path. -/
theorem download_atomic_witness :
    ((download_stat_csv "sg_total" 2024 ⟨404, [7, 9]⟩ (fun _ => none)).1 =
        (fun _ => none) ∧
      (download_stat_csv "sg_total" 2024 ⟨404, [7, 9]⟩ (fun _ => none)).2 =
        .error "HTTPError") ∧
    (download_stat_csv "sg_total" 2024 ⟨200, [7, 9]⟩ (fun _ => none)).1
        (rawPath "sg_total" 2024) = some [7, 9] :=
  ⟨(download_atomic "sg_total" 2024 ⟨404, [7, 9]⟩ (fun _ => none)).1 (by decide),
   ((download_atomic "sg_total" 2024 ⟨200, [7, 9]⟩ (fun _ => none)).2
      (by decide)).2.1⟩

/-- C1 (code bug): the claim says a raw row whose player-name cell is
null is absent from the tidy output.  In the source, `astype(str)` turns
the missing cell into the string `"nan"` before the
`dropna(subset=["player_name", ...])`, so the row survives with player
name `"nan"` (contradicting the comment "Drop rows with missing player
or value" right above the filter).  Here the first raw row has a null
player cell and a coercible value, and the output keeps it. -/
theorem parse_keeps_null_player_row :
    parse_one_file_core "sg_total" 2024
        ⟨["PLAYER", "AVG"], [[none, some "1.5"], [some "Bob", some "2.0"]]⟩ =
      .ok [⟨2024, "nan", 3 / 2⟩, ⟨2024, "Bob", 2⟩] := by
  with_unfolding_all rfl

/-- C2 counterexample: for stat `sg_total` the first hint is `"mean"`,
which matches column `"MEAN SG"` and not column `"AVG PTS"`; the claim
says `"MEAN SG"` is selected regardless of column order, but
`find_value_column` returns `"AVG PTS"` because it scans columns in
table order, not hints in hint-list order. -/
theorem find_value_column_hint_order_cex :
    find_value_column ⟨["AVG PTS", "MEAN SG"], []⟩ "sg_total" = .ok "AVG PTS" ∧
      (lookupSpec "sg_total").map (fun s => s.hints.head?) = some (some "mean") ∧
      matchesHint ["mean"] "MEAN SG" = true ∧
      matchesHint ["mean"] "AVG PTS" = false ∧
      "AVG PTS" ≠ "MEAN SG" :=
  ⟨rfl, rfl, by decide, by decide, by decide⟩

/-- C2 amended: whenever any hint substring occurs in some normalized
column name, `find_value_column` returns the first column in the
table's column order whose normalized name contains any of the stat's
hint substrings. -/
theorem find_value_column_first_matching_col (t : RawTable) (stat_name : String)
    (spec : StatSpec) (pre post : List String) (c : String)
    (hspec : lookupSpec stat_name = some spec)
    (hcols : t.cols = pre ++ c :: post)
    (hc : matchesHint (spec.hints.map toLowerStr) c = true)
    (hpre : ∀ x ∈ pre, matchesHint (spec.hints.map toLowerStr) x = false) :
    find_value_column t stat_name = .ok c := by
  have h1 : pre.find? (matchesHint (spec.hints.map toLowerStr)) = none := by
    rw [List.find?_eq_none]
    intro x hx
    simp [hpre x hx]
  simp only [find_value_column, hspec, hcols, List.find?_append, h1,
    List.find?_cons, hc, Option.or]

/-- Witness for the amended C2: `"RANK"` matches no `sg_total` hint,
`"AVG"` does, so `"AVG"` is selected. -/
theorem find_value_column_first_matching_col_witness :
    find_value_column ⟨["RANK", "AVG"], []⟩ "sg_total" = .ok "AVG" :=
  find_value_column_first_matching_col ⟨["RANK", "AVG"], []⟩ "sg_total"
    ⟨"sg_total", ["mean", "avg", "average", "sg:total"]⟩ ["RANK"] [] "AVG"
    (by decide) rfl (by decide) (by decide)

theorem mem_of_mem_dropDupNames : ∀ (l : List TidyRow) (r : TidyRow),
    r ∈ dropDupNames l → r ∈ l
  | [], r, h => by simp [dropDupNames] at h
  | x :: xs, r, h => by
    rw [dropDupNames] at h
    rcases List.mem_cons.mp h with h | h
    · exact h ▸ List.mem_cons_self x xs
    · exact List.mem_cons_of_mem _
        (List.mem_of_mem_filter
          (mem_of_mem_dropDupNames (xs.filter fun y => y.player_name != x.player_name) r h))
termination_by l => l.length
decreasing_by
  simp only [List.length_cons]
  exact Nat.lt_succ_of_le (List.length_filter_le _ _)

theorem nodup_dropDupNames : ∀ l : List TidyRow,
    ((dropDupNames l).map TidyRow.player_name).Nodup
  | [] => by simp [dropDupNames]
  | x :: xs => by
    rw [dropDupNames]
    simp only [List.map_cons, List.nodup_cons]
    refine ⟨?_, nodup_dropDupNames _⟩
    intro hmem
    rcases List.mem_map.mp hmem with ⟨y, hy, hname⟩
    have hyl := mem_of_mem_dropDupNames _ _ hy
    have h2 := (List.mem_filter.mp hyl).2
    simp [hname] at h2
termination_by l => l.length
decreasing_by
  simp only [List.length_cons]
  exact Nat.lt_succ_of_le (List.length_filter_le _ _)

theorem find?_filter_ne (n m : String) (h : m ≠ n) : ∀ l : List TidyRow,
    ((l.filter fun y => y.player_name != m).find? fun x => x.player_name == n) =
      l.find? fun x => x.player_name == n
  | [] => rfl
  | y :: ys => by
    by_cases hy : y.player_name = n
    · have hkeep : (y.player_name != m) = true := by
        simp only [bne_iff_ne, ne_eq, hy]
        exact fun he => h he.symm
      have hfind : (y.player_name == n) = true := by simp [hy]
      simp [List.filter_cons, hkeep, List.find?_cons, hfind]
    · by_cases hk : (y.player_name != m) = true
      · simp only [List.filter_cons, hk, if_true]
        have hbeq : (y.player_name == n) = false := by simp [hy]
        simp only [List.find?_cons, hbeq]
        exact find?_filter_ne n m h ys
      · simp only [List.filter_cons, hk, if_false]
        have hbeq : (y.player_name == n) = false := by simp [hy]
        simp only [List.find?_cons, hbeq]
        exact find?_filter_ne n m h ys

theorem find?_dropDupNames (n : String) : ∀ l : List TidyRow,
    ((dropDupNames l).find? fun x => x.player_name == n) =
      l.find? fun x => x.player_name == n
  | [] => by simp [dropDupNames]
  | x :: xs => by
    rw [dropDupNames]
    by_cases hx : x.player_name = n
    · simp [List.find?_cons, hx]
    · have hbeq : (x.player_name == n) = false := by simp [hx]
      simp only [List.find?_cons, hbeq]
      rw [find?_dropDupNames n (xs.filter fun y => y.player_name != x.player_name)]
      exact find?_filter_ne n x.player_name hx xs
termination_by l => l.length
decreasing_by
  simp only [List.length_cons]
  exact Nat.lt_succ_of_le (List.length_filter_le _ _)

theorem find?_eq_self_of_nodup : ∀ (l : List TidyRow),
    (l.map TidyRow.player_name).Nodup → ∀ r ∈ l,
      (l.find? fun x => x.player_name == r.player_name) = some r
  | [], _, r, hr => by simp at hr
  | y :: ys, hn, r, hr => by
    rcases List.mem_cons.mp hr with rfl | hr
    · simp [List.find?_cons]
    · have hyn : y.player_name ≠ r.player_name := by
        intro he
        have : r.player_name ∈ ys.map TidyRow.player_name :=
          List.mem_map.mpr ⟨r, hr, rfl⟩
        rw [List.map_cons, List.nodup_cons] at hn
        exact hn.1 (he ▸ this)
      have hbeq : (y.player_name == r.player_name) = false := by simp [hyn]
      simp only [List.find?_cons, hbeq]
      exact find?_eq_self_of_nodup ys (by
        rw [List.map_cons, List.nodup_cons] at hn; exact hn.2) r hr

theorem find?_filterMap_surv (year : Int) (n : String) :
    ∀ (ps : List (String × Option ℚ)) (r : TidyRow),
      ((ps.filterMap fun p => p.2.map fun v => TidyRow.mk year p.1 v).find?
          fun x => x.player_name == n) = some r →
        (ps.find? fun p => p.1 == n && p.2.isSome) = some (r.player_name, some r.value)
  | [], r, h => by simp at h
  | p :: ps, r, h => by
    cases hv : p.2 with
    | none =>
      rw [List.filterMap_cons, hv] at h
      simp only [Option.map_none'] at h
      have hpred : (p.1 == n && p.2.isSome) = false := by simp [hv]
      rw [List.find?_cons, hpred]
      exact find?_filterMap_surv year n ps r h
    | some v =>
      rw [List.filterMap_cons, hv] at h
      simp only [Option.map_some'] at h
      by_cases hp : p.1 = n
      · have hhead : ((TidyRow.mk year p.1 v).player_name == n) = true := by simp [hp]
        rw [List.find?_cons, hhead] at h
        have hr : TidyRow.mk year p.1 v = r := by injection h
        have hpred : (p.1 == n && p.2.isSome) = true := by simp [hp, hv]
        rw [List.find?_cons, hpred, ← hr]
        show some p = some (p.1, some v)
        rw [← hv]
      · have hb : ((TidyRow.mk year p.1 v).player_name == n) = false := by simp [hp]
        rw [List.find?_cons, hb] at h
        have hpred : (p.1 == n && p.2.isSome) = false := by simp [hp]
        rw [List.find?_cons, hpred]
        exact find?_filterMap_surv year n ps r h

/-- C8 amended: no two rows of the tidy output share a player name,
and for each output row the first raw row whose (stringified, stripped)
player cell bears that name and whose value cell coerces is exactly the
kept (name, value) pair — first occurrence among the rows surviving the
null/coercion filter; every surviving name does appear in the output. -/
theorem parse_keeps_first_surviving (stat_name : String) (year : Int)
    (t : RawTable) (player_col value_col : String) (out : List TidyRow)
    (hp : find_player_name_column t = some player_col)
    (hv : find_value_column t stat_name = .ok value_col)
    (hok : parse_one_file_core stat_name year t = .ok out) :
    (out.map TidyRow.player_name).Nodup ∧
    (∀ r ∈ out,
      ((prelimOf t player_col value_col).find?
          fun p => p.1 == r.player_name && p.2.isSome) =
        some (r.player_name, some r.value)) ∧
    ∀ p ∈ prelimOf t player_col value_col, p.2.isSome = true →
      ∃ r ∈ out, r.player_name = p.1 := by
  unfold parse_one_file_core at hok
  cases hspec : lookupSpec stat_name <;> rw [hspec] at hok
  · simp at hok
  rw [hp, hv] at hok
  simp only [Except.ok.injEq] at hok
  subst hok
  set filtered := (prelimOf t player_col value_col).filterMap
    (fun p => p.2.map fun v => TidyRow.mk year p.1 v) with hfil
  refine ⟨nodup_dropDupNames filtered, ?_, ?_⟩
  · intro r hr
    have h1 : (dropDupNames filtered).find?
        (fun x => x.player_name == r.player_name) = some r :=
      find?_eq_self_of_nodup _ (nodup_dropDupNames filtered) r hr
    rw [find?_dropDupNames] at h1
    exact find?_filterMap_surv year r.player_name _ r h1
  · intro p hpmem hsome
    by_contra hno
    push_neg at hno
    have hnone : (dropDupNames filtered).find?
        (fun x => x.player_name == p.1) = none := by
      rw [List.find?_eq_none]
      intro x hx
      simp only [beq_iff_eq]
      exact fun he => (hno x hx) he
    rw [find?_dropDupNames] at hnone
    rw [List.find?_eq_none] at hnone
    cases hv2 : p.2 with
    | none => simp [hv2] at hsome
    | some v =>
      have hmem : TidyRow.mk year p.1 v ∈ filtered := by
        rw [hfil]
        exact List.mem_filterMap.mpr ⟨p, hpmem, by rw [hv2]; rfl⟩
      have := hnone _ hmem
      simp at this

/-- Witness for the amended C8: two raw rows for `"Bob"`, both
surviving; the output keeps the first of them. -/
theorem parse_keeps_first_surviving_witness :
    (([⟨2024, "Bob", 1⟩] : List TidyRow).map TidyRow.player_name).Nodup ∧
    (∀ r ∈ ([⟨2024, "Bob", 1⟩] : List TidyRow),
      ((prelimOf ⟨["PLAYER", "AVG"], [[some "Bob", some "1"], [some "Bob", some "2"]]⟩
            "PLAYER" "AVG").find?
          fun p => p.1 == r.player_name && p.2.isSome) =
        some (r.player_name, some r.value)) ∧
    ∀ p ∈ prelimOf ⟨["PLAYER", "AVG"], [[some "Bob", some "1"], [some "Bob", some "2"]]⟩
        "PLAYER" "AVG",
      p.2.isSome = true → ∃ r ∈ ([⟨2024, "Bob", 1⟩] : List TidyRow), r.player_name = p.1 :=
  parse_keeps_first_surviving "sg_total" 2024
    ⟨["PLAYER", "AVG"], [[some "Bob", some "1"], [some "Bob", some "2"]]⟩
    "PLAYER" "AVG" [⟨2024, "Bob", 1⟩] (by with_unfolding_all rfl)
    (by with_unfolding_all rfl) (by with_unfolding_all rfl)

/-- C8 counterexample: two raw rows share player `"Alice"`; the first
occurrence's value cell `"x"` fails numeric coercion, so it is dropped
by the null filter before de-duplication, and the output keeps the
second input occurrence (value 5) — not "the first occurrence in the
input's row order" as claimed. -/
theorem parse_dedup_not_first_input_row :
    parse_one_file_core "sg_total" 2024
        ⟨["PLAYER", "AVG"], [[some "Alice", some "x"], [some "Alice", some "5"]]⟩ =
      .ok [⟨2024, "Alice", 5⟩] ∧
      coerceCell (some "x") = none :=
  ⟨by with_unfolding_all rfl, by decide⟩

end Golf
namespace Golf

theorem lookup_not_mem (l : List (String × Cell)) (x : String)
    (h : x ∉ l.map Prod.fst) : lookupCell l x = none := by
  have : l.find? (fun p => p.1 == x) = none := by
    rw [List.find?_eq_none]
    intro p hp
    simp only [beq_iff_eq]
    exact fun he => h (List.mem_map.mpr ⟨p, hp, he⟩)
  simp [lookupCell, this]

theorem lookup_snoc_ne (l : List (String × Cell)) (c x : String) (v : Cell)
    (h : x ≠ c) : lookupCell (l ++ [(c, v)]) x = lookupCell l x := by
  unfold lookupCell
  rw [List.find?_append]
  cases hf : l.find? (fun p => p.1 == x) with
  | some p => simp [Option.or]
  | none =>
    have hcx : c ≠ x := fun he => h he.symm
    have : ([(c, v)].find? fun p => p.1 == x) = none := by
      simp [List.find?_cons, hcx]
    simp [Option.or, this]

theorem lookup_snoc_self (l : List (String × Cell)) (c : String) (v : Cell)
    (h : c ∉ l.map Prod.fst) : lookupCell (l ++ [(c, v)]) c = v := by
  unfold lookupCell
  rw [List.find?_append]
  have h1 : l.find? (fun p => p.1 == c) = none := by
    rw [List.find?_eq_none]
    intro p hp
    simp only [beq_iff_eq]
    exact fun he => h (List.mem_map.mpr ⟨p, hp, he⟩)
  simp [h1, Option.or, List.find?_cons]

theorem lookup_map_none (cs : List String) (x : String) :
    lookupCell (cs.map fun c => (c, (none : Cell))) x = none := by
  induction cs with
  | nil => rfl
  | cons c cs ih =>
    unfold lookupCell at ih ⊢
    rw [List.map_cons, List.find?_cons]
    by_cases hc : c = x
    · simp [hc]
    · have : ((c, (none : Cell)).1 == x) = false := by simp [hc]
      rw [this]
      exact ih

theorem lookup_map_fn (cs : List String) (g : String → Cell) (x : String)
    (hx : x ∈ cs) : lookupCell (cs.map fun c => (c, g c)) x = g x := by
  induction cs with
  | nil => simp at hx
  | cons c cs ih =>
    unfold lookupCell
    rw [List.map_cons, List.find?_cons]
    by_cases hc : c = x
    · simp [hc]
    · have hb : ((c, g c).1 == x) = false := by simp [hc]
      rw [hb]
      have : x ∈ cs := by
        rcases List.mem_cons.mp hx with h | h
        · exact absurd h.symm hc
        · exact h
      exact ih this

theorem lookup_map_fn_not_mem (cs : List String) (g : String → Cell) (x : String)
    (hx : x ∉ cs) : lookupCell (cs.map fun c => (c, g c)) x = none := by
  apply lookup_not_mem
  simp only [List.map_map]
  intro h
  rcases List.mem_map.mp h with ⟨c, hc, he⟩
  exact hx (he ▸ hc)

theorem filter_key_nil {α β : Type} [DecidableEq β] (kf : α → β) (l : List α)
    (k : β) (h : k ∉ l.map kf) : l.filter (fun a => kf a = k) = [] := by
  rw [List.filter_eq_nil_iff]
  intro a ha
  simp only [decide_eq_true_eq]
  exact fun he => h (List.mem_map.mpr ⟨a, ha, he⟩)

theorem filter_key_singleton {α β : Type} [DecidableEq β] (kf : α → β) :
    ∀ (l : List α), (l.map kf).Nodup → ∀ a ∈ l,
      l.filter (fun x => kf x = kf a) = [a]
  | [], _, a, ha => by simp at ha
  | b :: t, hn, a, ha => by
    rw [List.map_cons, List.nodup_cons] at hn
    rcases List.mem_cons.mp ha with rfl | ha
    · rw [List.filter_cons]
      have ht : t.filter (fun x => kf x = kf a) = [] :=
        filter_key_nil kf t (kf a) hn.1
      simp [ht]
    · rw [List.filter_cons]
      have hbne : kf b ≠ kf a := by
        intro he
        exact hn.1 (he ▸ List.mem_map.mpr ⟨a, ha, rfl⟩)
      simp only [decide_eq_true_eq]
      rw [if_neg hbne]
      exact filter_key_singleton kf t hn.2 a ha

theorem find?_key_of_nodup {α β : Type} [DecidableEq β] (kf : α → β) :
    ∀ (l : List α), (l.map kf).Nodup → ∀ a ∈ l, ∀ k, kf a = k →
      l.find? (fun x => kf x = k) = some a
  | [], _, a, ha, _, _ => by simp at ha
  | b :: t, hn, a, ha, k, hk => by
    rw [List.map_cons, List.nodup_cons] at hn
    rcases List.mem_cons.mp ha with rfl | ha
    · rw [List.find?_cons]
      simp [hk]
    · have hbne : kf b ≠ k := by
        intro he
        exact hn.1 ((he.trans hk.symm) ▸ List.mem_map.mpr ⟨a, ha, rfl⟩)
      rw [List.find?_cons]
      have : (decide (kf b = k)) = false := by simp [hbne]
      rw [this]
      exact find?_key_of_nodup kf t hn.2 a ha k hk

end Golf

namespace Golf

theorem mergeOuter_cols (m : Merged) (f : LoadedFrame) :
    (mergeOuter m f).cols = m.cols ++ [f.col] := rfl

theorem mem_keyDedupSorted (ks : List (Int × String)) (k : Int × String) :
    k ∈ keyDedupSorted ks ↔ k ∈ ks := by
  unfold keyDedupSorted
  rw [(List.perm_insertionSort keyLe ks.dedup).mem_iff, List.mem_dedup]

theorem nodup_keyDedupSorted (ks : List (Int × String)) :
    (keyDedupSorted ks).Nodup := by
  unfold keyDedupSorted
  exact ((List.perm_insertionSort keyLe ks.dedup).nodup_iff).mpr (List.nodup_dedup ks)

theorem mem_mergeOuter_rows (m : Merged) (f : LoadedFrame) (row : MRow)
    (h : row ∈ (mergeOuter m f).rows) :
    ∃ k, k ∈ m.rows.map keyOf ++ f.rows.map (fun r => (r.1, r.2.1)) ∧
      keyOf row = k ∧
      ((∃ q ∈ f.rows, (q.1, q.2.1) = k ∧
          (m.rows.filter fun r => keyOf r = k) = [] ∧
          row = ⟨q.1, q.2.1,
            (m.cols.map fun c => (c, (none : Cell))) ++ [(f.col, q.2.2)]⟩) ∨
       (∃ r₀ ∈ m.rows, keyOf r₀ = k ∧
          (f.rows.filter fun r => (r.1, r.2.1) = k) = [] ∧
          row = { r₀ with vals := r₀.vals ++ [(f.col, (none : Cell))] }) ∨
       (∃ r₀ ∈ m.rows, keyOf r₀ = k ∧ ∃ q ∈ f.rows, (q.1, q.2.1) = k ∧
          row = { r₀ with vals := r₀.vals ++ [(f.col, q.2.2)] })) := by
  unfold mergeOuter at h
  simp only [List.mem_flatMap] at h
  rcases h with ⟨k, hk, hrow⟩
  rw [mem_keyDedupSorted] at hk
  refine ⟨k, hk, ?_⟩
  cases hls : (m.rows.filter fun r => keyOf r = k) with
  | nil =>
    rw [hls] at hrow
    cases hrs : (f.rows.filter fun r => (r.1, r.2.1) = k) with
    | nil =>
      rw [hrs] at hrow
      simp at hrow
    | cons q0 rs' =>
      rw [hrs] at hrow
      simp only [List.mem_map] at hrow
      rcases hrow with ⟨q, hq, hroweq⟩
      have hqm : q ∈ f.rows ∧ (q.1, q.2.1) = k := by
        have := hrs ▸ hq
        have hmem := List.mem_filter.mp this
        exact ⟨hmem.1, by simpa using hmem.2⟩
      constructor
      · rw [← hroweq]
        exact hqm.2
      · exact Or.inl ⟨q, hqm.1, hqm.2, rfl, hroweq.symm⟩
  | cons a ls' =>
    rw [hls] at hrow
    cases hrs : (f.rows.filter fun r => (r.1, r.2.1) = k) with
    | nil =>
      rw [hrs] at hrow
      simp only [List.mem_map] at hrow
      rcases hrow with ⟨r₀, hr₀, hroweq⟩
      have hr₀m : r₀ ∈ m.rows ∧ keyOf r₀ = k := by
        have := hls ▸ hr₀
        have hmem := List.mem_filter.mp this
        exact ⟨hmem.1, by simpa using hmem.2⟩
      constructor
      · rw [← hroweq]
        exact hr₀m.2
      · exact Or.inr (Or.inl ⟨r₀, hr₀m.1, hr₀m.2, rfl, hroweq.symm⟩)
    | cons q0 rs' =>
      rw [hrs] at hrow
      simp only [List.mem_flatMap, List.mem_map] at hrow
      rcases hrow with ⟨r₀, hr₀, q, hq, hroweq⟩
      have hr₀m : r₀ ∈ m.rows ∧ keyOf r₀ = k := by
        have := hls ▸ hr₀
        have hmem := List.mem_filter.mp this
        exact ⟨hmem.1, by simpa using hmem.2⟩
      have hqm : q ∈ f.rows ∧ (q.1, q.2.1) = k := by
        have := hrs ▸ hq
        have hmem := List.mem_filter.mp this
        exact ⟨hmem.1, by simpa using hmem.2⟩
      constructor
      · rw [← hroweq]
        exact hr₀m.2
      · exact Or.inr (Or.inr ⟨r₀, hr₀m.1, hr₀m.2, q, hqm.1, hqm.2, hroweq.symm⟩)

end Golf

namespace Golf

theorem keys_mergeOuter_sub (m : Merged) (f : LoadedFrame) (k : Int × String)
    (hk : k ∈ m.rows.map keyOf ++ f.rows.map (fun r => (r.1, r.2.1))) :
    ∃ row ∈ (mergeOuter m f).rows, keyOf row = k := by
  have hks : k ∈ keyDedupSorted
      (m.rows.map keyOf ++ f.rows.map (fun r => (r.1, r.2.1))) :=
    (mem_keyDedupSorted _ k).mpr hk
  unfold mergeOuter
  simp only [List.mem_flatMap]
  cases hls : (m.rows.filter fun r => keyOf r = k) with
  | nil =>
    have hkf : k ∈ f.rows.map (fun r => (r.1, r.2.1)) := by
      rcases List.mem_append.mp hk with h | h
      · rcases List.mem_map.mp h with ⟨r, hr, hkey⟩
        have : r ∈ m.rows.filter fun r => keyOf r = k :=
          List.mem_filter.mpr ⟨hr, by simp [hkey]⟩
        rw [hls] at this
        simp at this
      · exact h
    rcases List.mem_map.mp hkf with ⟨q, hq, hkey⟩
    have hqrs : q ∈ f.rows.filter fun r => (r.1, r.2.1) = k :=
      List.mem_filter.mpr ⟨hq, by simp [hkey]⟩
    refine ⟨⟨q.1, q.2.1,
      (m.cols.map fun c => (c, (none : Cell))) ++ [(f.col, q.2.2)]⟩, ⟨k, hks, ?_⟩, hkey⟩
    rw [hls]
    cases hrs : (f.rows.filter fun r => (r.1, r.2.1) = k) with
    | nil =>
      rw [hrs] at hqrs
      simp at hqrs
    | cons q0 rs' =>
      rw [hrs] at hqrs
      exact List.mem_map.mpr ⟨q, hqrs, rfl⟩
  | cons a ls' =>
    have ham := List.mem_filter.mp (hls ▸ List.mem_cons_self a ls')
    have hak : keyOf a = k := by simpa using ham.2
    cases hrs : (f.rows.filter fun r => (r.1, r.2.1) = k) with
    | nil =>
      refine ⟨{ a with vals := a.vals ++ [(f.col, (none : Cell))] }, ⟨k, hks, ?_⟩, hak⟩
      rw [hls, hrs]
      exact List.mem_map.mpr ⟨a, List.mem_cons_self a ls', rfl⟩
    | cons q0 rs' =>
      refine ⟨{ a with vals := a.vals ++ [(f.col, q0.2.2)] }, ⟨k, hks, ?_⟩, hak⟩
      rw [hls, hrs]
      simp only [List.mem_flatMap, List.mem_map]
      exact ⟨a, List.mem_cons_self a ls', q0, List.mem_cons_self q0 rs', rfl⟩

end Golf

namespace Golf

theorem mergeOuter_valskeys (m : Merged) (f : LoadedFrame)
    (hvk : ∀ r ∈ m.rows, r.vals.map Prod.fst = m.cols) :
    ∀ r ∈ (mergeOuter m f).rows,
      r.vals.map Prod.fst = (mergeOuter m f).cols := by
  intro row hrow
  rw [mergeOuter_cols]
  rcases mem_mergeOuter_rows m f row hrow with
    ⟨k, _, _, ⟨q, _, _, _, heq⟩ | ⟨r₀, hr₀, _, _, heq⟩ | ⟨r₀, hr₀, _, q, _, _, heq⟩⟩
  · subst heq
    simp only [MRow.mk.injEq, List.map_append, List.map_map]
    rw [show (Prod.fst ∘ fun c => (c, (none : Cell))) = id from rfl, List.map_id]
    simp
  · subst heq
    simp [hvk r₀ hr₀]
  · subst heq
    simp [hvk r₀ hr₀]

theorem foldMerge_cols : ∀ (fs : List LoadedFrame) (m : Merged),
    (fs.foldl mergeOuter m).cols = m.cols ++ fs.map (·.col)
  | [], m => by simp
  | f :: fs, m => by
    rw [List.foldl_cons, foldMerge_cols fs (mergeOuter m f), mergeOuter_cols]
    simp

theorem foldMerge_valskeys : ∀ (fs : List LoadedFrame) (m : Merged),
    (∀ r ∈ m.rows, r.vals.map Prod.fst = m.cols) →
    ∀ r ∈ (fs.foldl mergeOuter m).rows,
      r.vals.map Prod.fst = (fs.foldl mergeOuter m).cols
  | [], m, hvk => hvk
  | f :: fs, m, hvk => by
    rw [List.foldl_cons]
    exact foldMerge_valskeys fs (mergeOuter m f) (mergeOuter_valskeys m f hvk)

theorem foldMerge_keymem : ∀ (fs : List LoadedFrame) (m : Merged) (k : Int × String),
    (k ∈ m.rows.map keyOf ∨ ∃ f ∈ fs, k ∈ f.rows.map fun r => (r.1, r.2.1)) →
    ∃ row ∈ (fs.foldl mergeOuter m).rows, keyOf row = k
  | [], m, k, h => by
    rcases h with h | ⟨f, hf, _⟩
    · rcases List.mem_map.mp h with ⟨r, hr, hkey⟩
      exact ⟨r, hr, hkey⟩
    · simp at hf
  | f :: fs, m, k, h => by
    rw [List.foldl_cons]
    apply foldMerge_keymem fs (mergeOuter m f) k
    rcases h with h | ⟨g, hg, hkg⟩
    · left
      rcases keys_mergeOuter_sub m f k (List.mem_append.mpr (Or.inl h)) with
        ⟨row, hrow, hkey⟩
      exact List.mem_map.mpr ⟨row, hrow, hkey⟩
    · rcases List.mem_cons.mp hg with rfl | hg
      · left
        rcases keys_mergeOuter_sub m g k (List.mem_append.mpr (Or.inr hkg)) with
          ⟨row, hrow, hkey⟩
        exact List.mem_map.mpr ⟨row, hrow, hkey⟩
      · exact Or.inr ⟨g, hg, hkg⟩

end Golf

namespace Golf

theorem flatMap_of_singleton {α : Type} : ∀ (l : List α) (f : α → List α),
    (∀ k ∈ l, f k = [k]) → l.flatMap f = l
  | [], _, _ => rfl
  | a :: l, f, h => by
    rw [List.flatMap_cons, h a (List.mem_cons_self a l),
      flatMap_of_singleton l f fun k hk => h k (List.mem_cons_of_mem a hk)]
    rfl

theorem mergeOuter_keys_eq (m : Merged) (f : LoadedFrame)
    (hmn : (m.rows.map keyOf).Nodup)
    (hfn : (f.rows.map fun r => (r.1, r.2.1)).Nodup) :
    (mergeOuter m f).rows.map keyOf =
      keyDedupSorted (m.rows.map keyOf ++ f.rows.map fun r => (r.1, r.2.1)) := by
  unfold mergeOuter
  rw [List.map_flatMap]
  apply flatMap_of_singleton
  intro k hk
  rw [mem_keyDedupSorted] at hk
  by_cases hm : k ∈ m.rows.map keyOf
  · rcases List.mem_map.mp hm with ⟨r, hr, hkr⟩
    have hls : (m.rows.filter fun x => keyOf x = k) = [r] := by
      rw [← hkr]
      exact filter_key_singleton keyOf m.rows hmn r hr
    rw [hls]
    by_cases hf : k ∈ f.rows.map fun x => (x.1, x.2.1)
    · rcases List.mem_map.mp hf with ⟨q, hq, hkq⟩
      have hrs : (f.rows.filter fun x => (x.1, x.2.1) = k) = [q] := by
        rw [← hkq]
        exact filter_key_singleton (fun x => (x.1, x.2.1)) f.rows hfn q hq
      rw [hrs]
      simpa [keyOf] using hkr
    · have hrs : (f.rows.filter fun x => (x.1, x.2.1) = k) = [] :=
        filter_key_nil _ f.rows k hf
      rw [hrs]
      simpa [keyOf] using hkr
  · have hls : (m.rows.filter fun x => keyOf x = k) = [] :=
      filter_key_nil keyOf m.rows k hm
    have hf : k ∈ f.rows.map fun x => (x.1, x.2.1) := by
      rcases List.mem_append.mp hk with h | h
      · exact absurd h hm
      · exact h
    rcases List.mem_map.mp hf with ⟨q, hq, hkq⟩
    have hrs : (f.rows.filter fun x => (x.1, x.2.1) = k) = [q] := by
      rw [← hkq]
      exact filter_key_singleton (fun x => (x.1, x.2.1)) f.rows hfn q hq
    rw [hls, hrs]
    simp [keyOf, hkq]

theorem mergeOuter_keys_nodup (m : Merged) (f : LoadedFrame)
    (hmn : (m.rows.map keyOf).Nodup)
    (hfn : (f.rows.map fun r => (r.1, r.2.1)).Nodup) :
    ((mergeOuter m f).rows.map keyOf).Nodup := by
  rw [mergeOuter_keys_eq m f hmn hfn]
  exact nodup_keyDedupSorted _

end Golf

namespace Golf

theorem frameVal_of_filter_nil (f : LoadedFrame) (k : Int × String)
    (h : (f.rows.filter fun r => (r.1, r.2.1) = k) = []) : frameVal f k = none := by
  unfold frameVal
  have : (f.rows.find? fun r => (r.1, r.2.1) = k) = none := by
    rw [List.find?_eq_none]
    intro x hx
    have := List.filter_eq_nil_iff.mp h x hx
    exact this
  rw [this]
  rfl

theorem frameVal_of_mem (f : LoadedFrame) (q : Int × String × Cell)
    (k : Int × String) (hfn : (f.rows.map fun r => (r.1, r.2.1)).Nodup)
    (hq : q ∈ f.rows) (hk : (q.1, q.2.1) = k) : frameVal f k = q.2.2 := by
  unfold frameVal
  rw [find?_key_of_nodup (fun r => (r.1, r.2.1)) f.rows hfn q hq k hk]
  rfl

theorem mergeOuter_prov (m : Merged) (f : LoadedFrame) (consumed : List LoadedFrame)
    (hcols : m.cols = consumed.map (·.col))
    (hvk : ∀ r ∈ m.rows, r.vals.map Prod.fst = m.cols)
    (hprov : ∀ r ∈ m.rows, ∀ g ∈ consumed,
      lookupCell r.vals g.col = frameVal g (keyOf r))
    (hkm : ∀ g ∈ consumed, ∀ q ∈ g.rows, (q.1, q.2.1) ∈ m.rows.map keyOf)
    (hfn : (f.rows.map fun r => (r.1, r.2.1)).Nodup)
    (hfc : f.col ∉ consumed.map (·.col)) :
    ∀ row ∈ (mergeOuter m f).rows, ∀ g ∈ consumed ++ [f],
      lookupCell row.vals g.col = frameVal g (keyOf row) := by
  intro row hrow g hg
  have hfcm : f.col ∉ m.cols := by
    rw [hcols]
    exact hfc
  rcases mem_mergeOuter_rows m f row hrow with
    ⟨k, hk, hkey, ⟨q, hq, hkq, hls, heq⟩ | ⟨r₀, hr₀, hkr, hrs, heq⟩ |
      ⟨r₀, hr₀, hkr, q, hq, hkq, heq⟩⟩
  · -- key only on the right: padded row built from f
    have hknotm : ∀ r ∈ m.rows, keyOf r ≠ k := by
      intro r hr he
      have : r ∈ m.rows.filter fun x => keyOf x = k :=
        List.mem_filter.mpr ⟨hr, by simp [he]⟩
      rw [hls] at this
      simp at this
    subst heq
    rcases List.mem_append.mp hg with hgc | hgf
    · have hgne : g.col ≠ f.col := by
        intro he
        exact hfc (he ▸ List.mem_map.mpr ⟨g, hgc, rfl⟩)
      rw [hkey, lookup_snoc_ne _ _ _ _ hgne, lookup_map_none]
      symm
      apply frameVal_of_filter_nil
      rw [List.filter_eq_nil_iff]
      intro x hx hdec
      have hkx : (x.1, x.2.1) = k := by simpa using hdec
      rcases List.mem_map.mp (hkm g hgc x hx) with ⟨r, hr, hkr⟩
      exact hknotm r hr (hkr.trans hkx)
    · have hgf' : g = f := by simpa using hgf
      subst hgf'
      rw [hkey]
      have hkeys : (m.cols.map fun c => (c, (none : Cell))).map Prod.fst = m.cols := by
        rw [List.map_map]
        exact List.map_id m.cols
      rw [lookup_snoc_self _ _ _ (by rw [hkeys]; exact hfcm)]
      symm
      exact frameVal_of_mem g q k hfn hq hkq
  · -- key only on the left: existing row padded with none for f
    have hkeyr : keyOf r₀ = k := hkr
    subst heq
    have hkeyrow : keyOf { r₀ with vals := r₀.vals ++ [(f.col, (none : Cell))] } =
        keyOf r₀ := rfl
    rcases List.mem_append.mp hg with hgc | hgf
    · have hgne : g.col ≠ f.col := by
        intro he
        exact hfc (he ▸ List.mem_map.mpr ⟨g, hgc, rfl⟩)
      rw [hkeyrow, lookup_snoc_ne _ _ _ _ hgne]
      exact hprov r₀ hr₀ g hgc
    · have hgf' : g = f := by simpa using hgf
      subst hgf'
      rw [hkeyrow, lookup_snoc_self _ _ _ (by rw [hvk r₀ hr₀]; exact hfcm)]
      rw [hkeyr]
      symm
      exact frameVal_of_filter_nil g k hrs
  · -- key on both sides
    have hkeyr : keyOf r₀ = k := hkr
    subst heq
    have hkeyrow : keyOf { r₀ with vals := r₀.vals ++ [(f.col, q.2.2)] } =
        keyOf r₀ := rfl
    rcases List.mem_append.mp hg with hgc | hgf
    · have hgne : g.col ≠ f.col := by
        intro he
        exact hfc (he ▸ List.mem_map.mpr ⟨g, hgc, rfl⟩)
      rw [hkeyrow, lookup_snoc_ne _ _ _ _ hgne]
      exact hprov r₀ hr₀ g hgc
    · have hgf' : g = f := by simpa using hgf
      subst hgf'
      rw [hkeyrow, lookup_snoc_self _ _ _ (by rw [hvk r₀ hr₀]; exact hfcm)]
      rw [hkeyr]
      symm
      exact frameVal_of_mem g q k hfn hq hkq

end Golf

namespace Golf

theorem mergeOuter_keymem (m : Merged) (f : LoadedFrame)
    (consumed : List LoadedFrame)
    (hkm : ∀ g ∈ consumed, ∀ q ∈ g.rows, (q.1, q.2.1) ∈ m.rows.map keyOf) :
    ∀ g ∈ consumed ++ [f], ∀ q ∈ g.rows,
      (q.1, q.2.1) ∈ (mergeOuter m f).rows.map keyOf := by
  intro g hg q hq
  rcases List.mem_append.mp hg with hgc | hgf
  · rcases keys_mergeOuter_sub m f (q.1, q.2.1)
        (List.mem_append.mpr (Or.inl (hkm g hgc q hq))) with ⟨row, hrow, hkey⟩
    exact List.mem_map.mpr ⟨row, hrow, hkey⟩
  · have hgf' : g = f := by simpa using hgf
    subst hgf'
    rcases keys_mergeOuter_sub m g (q.1, q.2.1)
        (List.mem_append.mpr (Or.inr (List.mem_map.mpr ⟨q, hq, rfl⟩))) with
      ⟨row, hrow, hkey⟩
    exact List.mem_map.mpr ⟨row, hrow, hkey⟩

theorem foldMerge_inv : ∀ (fs : List LoadedFrame) (consumed : List LoadedFrame)
    (m : Merged),
    m.cols = consumed.map (·.col) →
    (∀ r ∈ m.rows, r.vals.map Prod.fst = m.cols) →
    (∀ r ∈ m.rows, ∀ g ∈ consumed,
      lookupCell r.vals g.col = frameVal g (keyOf r)) →
    (∀ g ∈ consumed, ∀ q ∈ g.rows, (q.1, q.2.1) ∈ m.rows.map keyOf) →
    (m.rows.map keyOf).Nodup →
    (∀ f ∈ fs, (f.rows.map fun r => (r.1, r.2.1)).Nodup) →
    ((consumed ++ fs).map (·.col)).Nodup →
    (∀ row ∈ (fs.foldl mergeOuter m).rows, ∀ g ∈ consumed ++ fs,
        lookupCell row.vals g.col = frameVal g (keyOf row)) ∧
      ((fs.foldl mergeOuter m).rows.map keyOf).Nodup
  | [], consumed, m, _, _, hprov, _, hnd, _, _ => by
    refine ⟨?_, hnd⟩
    intro row hrow g hg
    exact hprov row hrow g (by simpa using hg)
  | f :: fs, consumed, m, hcols, hvk, hprov, hkm, hnd, hfsn, hallc => by
    rw [List.foldl_cons]
    have hfn : (f.rows.map fun r => (r.1, r.2.1)).Nodup :=
      hfsn f (List.mem_cons_self f fs)
    have hfc : f.col ∉ consumed.map (·.col) := by
      intro hmem
      have h2 : ((consumed ++ f :: fs).map (·.col)) =
          consumed.map (·.col) ++ f.col :: fs.map (·.col) := by simp
      rw [h2] at hallc
      rcases List.nodup_append.mp hallc with ⟨_, h3, h4⟩
      exact (h4 hmem) (List.mem_cons_self f.col _)
    have step := foldMerge_inv fs (consumed ++ [f]) (mergeOuter m f)
      (by rw [mergeOuter_cols, hcols]; simp)
      (mergeOuter_valskeys m f hvk)
      (mergeOuter_prov m f consumed hcols hvk hprov hkm hfn hfc)
      (mergeOuter_keymem m f consumed hkm)
      (mergeOuter_keys_nodup m f hnd hfn)
      (fun g hg => hfsn g (List.mem_cons_of_mem f hg))
      (by simpa using hallc)
    refine ⟨?_, step.2⟩
    intro row hrow g hg
    apply step.1 row hrow g
    have : consumed ++ f :: fs = (consumed ++ [f]) ++ fs := by simp
    rw [this] at hg
    exact hg

end Golf

namespace Golf

theorem initMerged_keys (f : LoadedFrame) :
    (initMerged f).rows.map keyOf = f.rows.map fun r => (r.1, r.2.1) := by
  unfold initMerged
  rw [List.map_map]
  rfl

theorem reduceMerge_cols (frames : List LoadedFrame) (m : Merged)
    (h : reduceMerge frames = some m) : m.cols = frames.map (·.col) := by
  cases frames with
  | nil => simp [reduceMerge] at h
  | cons f fs =>
    simp only [reduceMerge, Option.some.injEq] at h
    subst h
    rw [foldMerge_cols]
    rfl

theorem reduceMerge_valskeys (frames : List LoadedFrame) (m : Merged)
    (h : reduceMerge frames = some m) :
    ∀ r ∈ m.rows, r.vals.map Prod.fst = m.cols := by
  cases frames with
  | nil => simp [reduceMerge] at h
  | cons f fs =>
    simp only [reduceMerge, Option.some.injEq] at h
    subst h
    apply foldMerge_valskeys
    intro r hr
    rcases List.mem_map.mp hr with ⟨q, _, hq⟩
    subst hq
    rfl

theorem reduceMerge_keymem (frames : List LoadedFrame) (m : Merged)
    (h : reduceMerge frames = some m) :
    ∀ g ∈ frames, ∀ q ∈ g.rows, (q.1, q.2.1) ∈ m.rows.map keyOf := by
  cases frames with
  | nil => simp [reduceMerge] at h
  | cons f fs =>
    simp only [reduceMerge, Option.some.injEq] at h
    subst h
    intro g hg q hq
    rcases List.mem_cons.mp hg with rfl | hg
    · rcases foldMerge_keymem fs (initMerged g) (q.1, q.2.1)
          (Or.inl (by rw [initMerged_keys]; exact List.mem_map.mpr ⟨q, hq, rfl⟩)) with
        ⟨row, hrow, hkey⟩
      exact List.mem_map.mpr ⟨row, hrow, hkey⟩
    · rcases foldMerge_keymem fs (initMerged f) (q.1, q.2.1)
          (Or.inr ⟨g, hg, List.mem_map.mpr ⟨q, hq, rfl⟩⟩) with ⟨row, hrow, hkey⟩
      exact List.mem_map.mpr ⟨row, hrow, hkey⟩

theorem reduceMerge_strong (frames : List LoadedFrame) (m : Merged)
    (h : reduceMerge frames = some m)
    (hn : ∀ f ∈ frames, (f.rows.map fun r => (r.1, r.2.1)).Nodup)
    (hc : (frames.map (·.col)).Nodup) :
    (∀ row ∈ m.rows, ∀ g ∈ frames,
        lookupCell row.vals g.col = frameVal g (keyOf row)) ∧
      (m.rows.map keyOf).Nodup := by
  cases frames with
  | nil => simp [reduceMerge] at h
  | cons f fs =>
    simp only [reduceMerge, Option.some.injEq] at h
    subst h
    have hfn := hn f (List.mem_cons_self f fs)
    have base := foldMerge_inv fs [f] (initMerged f)
      rfl
      (by
        intro r hr
        rcases List.mem_map.mp hr with ⟨q, _, hq⟩
        subst hq
        rfl)
      (by
        intro r hr g hg
        have hgf : g = f := by simpa using hg
        subst hgf
        rcases List.mem_map.mp hr with ⟨q, hq, hr'⟩
        subst hr'
        show lookupCell [(g.col, q.2.2)] g.col = frameVal g (q.1, q.2.1)
        rw [frameVal_of_mem g q (q.1, q.2.1) hfn hq rfl]
        simp [lookupCell, List.find?_cons])
      (by
        intro g hg q hq
        have hgf : g = f := by simpa using hg
        subst hgf
        rw [initMerged_keys]
        exact List.mem_map.mpr ⟨q, hq, rfl⟩)
      (by rw [initMerged_keys]; exact hfn)
      (fun g hg => hn g (List.mem_cons_of_mem f hg))
      (by simpa using hc)
    refine ⟨?_, base.2⟩
    intro row hrow g hg
    exact base.1 row hrow g (by simpa using hg)

end Golf

namespace Golf

theorem ttg_cond_rows (m : Merged)
    (hc : "sg_off_the_tee" ∈ m.cols ∧ "sg_approach" ∈ m.cols ∧
      "sg_around_green" ∈ m.cols) :
    (addTeeToGreen m).cols = m.cols ++ ["sg_tee_to_green"] ∧
    (addTeeToGreen m).rows = m.rows.map fun r =>
      { r with vals := r.vals ++
          [("sg_tee_to_green",
            optAdd3 (lookupCell r.vals "sg_off_the_tee")
              (lookupCell r.vals "sg_approach")
              (lookupCell r.vals "sg_around_green"))] } := by
  unfold addTeeToGreen
  rw [if_pos hc]
  exact ⟨rfl, rfl⟩

theorem ttg_not_cond (m : Merged)
    (hc : ¬("sg_off_the_tee" ∈ m.cols ∧ "sg_approach" ∈ m.cols ∧
      "sg_around_green" ∈ m.cols)) :
    addTeeToGreen m = m := by
  unfold addTeeToGreen
  rw [if_neg hc]

theorem ttg_valskeys (m : Merged)
    (hvk : ∀ r ∈ m.rows, r.vals.map Prod.fst = m.cols) :
    ∀ r ∈ (addTeeToGreen m).rows, r.vals.map Prod.fst = (addTeeToGreen m).cols := by
  by_cases hc : "sg_off_the_tee" ∈ m.cols ∧ "sg_approach" ∈ m.cols ∧
      "sg_around_green" ∈ m.cols
  · rcases ttg_cond_rows m hc with ⟨hcols, hrows⟩
    rw [hcols, hrows]
    intro r hr
    rcases List.mem_map.mp hr with ⟨r₀, hr₀, heq⟩
    subst heq
    simp [hvk r₀ hr₀]
  · rw [ttg_not_cond m hc]
    exact hvk

theorem ttg_keys (m : Merged) :
    (addTeeToGreen m).rows.map keyOf = m.rows.map keyOf := by
  by_cases hc : "sg_off_the_tee" ∈ m.cols ∧ "sg_approach" ∈ m.cols ∧
      "sg_around_green" ∈ m.cols
  · rw [(ttg_cond_rows m hc).2, List.map_map]
    rfl
  · rw [ttg_not_cond m hc]

theorem finalize_cols (m : Merged) : (finalize m).cols = expectedValueCols := rfl

theorem mem_finalize_of_mem (m : Merged) (r₀ : MRow)
    (h : r₀ ∈ (addTeeToGreen m).rows) :
    { r₀ with vals := expectedValueCols.map fun c => (c, lookupCell r₀.vals c) } ∈
      (finalize m).rows := by
  unfold finalize
  rw [(List.perm_insertionSort rowLe _).mem_iff]
  exact List.mem_map.mpr ⟨r₀, h, rfl⟩

theorem mem_finalize_elim (m : Merged) (r : MRow)
    (h : r ∈ (finalize m).rows) :
    ∃ r₀ ∈ (addTeeToGreen m).rows,
      r = { r₀ with vals := expectedValueCols.map fun c => (c, lookupCell r₀.vals c) } := by
  unfold finalize at h
  rw [(List.perm_insertionSort rowLe _).mem_iff] at h
  rcases List.mem_map.mp h with ⟨r₀, hr₀, heq⟩
  exact ⟨r₀, hr₀, heq.symm⟩

theorem finalize_keys_perm (m : Merged) :
    ((finalize m).rows.map keyOf).Perm (m.rows.map keyOf) := by
  unfold finalize
  have h1 := (List.perm_insertionSort rowLe
    ((addTeeToGreen m).rows.map fun r =>
      { r with vals := expectedValueCols.map fun c => (c, lookupCell r.vals c) })).map keyOf
  refine h1.trans ?_
  rw [List.map_map]
  rw [show (keyOf ∘ fun r => { r with vals := expectedValueCols.map fun c =>
      (c, lookupCell r.vals c) }) = keyOf from rfl]
  rw [ttg_keys]

theorem build_ok_elim (files : TidyFiles) (year : Int) (m : Merged)
    (h : build_for_year files year = .ok m) :
    ∃ merged, reduceMerge (collectFrames files).1 = some merged ∧
      m = finalize merged := by
  simp only [build_for_year] at h
  cases hr : reduceMerge (collectFrames files).1 with
  | none =>
    rw [hr] at h
    simp at h
  | some merged =>
    rw [hr] at h
    simp only [Except.ok.injEq] at h
    exact ⟨merged, rfl, h.symm⟩

theorem build_error_elim (files : TidyFiles) (year : Int) (e : BuildErr)
    (h : build_for_year files year = .error e) :
    reduceMerge (collectFrames files).1 = none ∧
      e = ⟨year, (collectFrames files).2.2.1, (collectFrames files).2.2.2⟩ := by
  simp only [build_for_year] at h
  cases hr : reduceMerge (collectFrames files).1 with
  | none =>
    rw [hr] at h
    simp only [Except.error.injEq] at h
    exact ⟨rfl, h.symm⟩
  | some merged =>
    rw [hr] at h
    simp at h

end Golf

namespace Golf

theorem collectFrames_eq (files : TidyFiles) :
    collectFrames files =
      (STAT_COLUMNS.filterMap (loadedFrame files),
       (STAT_COLUMNS.filter (isLoaded files)).map Prod.fst,
       (STAT_COLUMNS.filter (isSkipped files)).map Prod.fst,
       (STAT_COLUMNS.filter (isEmptyStat files)).map Prod.fst) := by
  unfold collectFrames
  have general : ∀ (l : List (String × String))
      (acc : List LoadedFrame × List String × List String × List String),
      l.foldl (fun acc p =>
        match load_stat_for_year (files p.1) p.2 with
        | .error _ => (acc.1, acc.2.1, acc.2.2.1 ++ [p.1], acc.2.2.2)
        | .ok none => (acc.1, acc.2.1, acc.2.2.1, acc.2.2.2 ++ [p.1])
        | .ok (some fr) => (acc.1 ++ [fr], acc.2.1 ++ [p.1], acc.2.2.1, acc.2.2.2)) acc =
      (acc.1 ++ l.filterMap (loadedFrame files),
       acc.2.1 ++ (l.filter (isLoaded files)).map Prod.fst,
       acc.2.2.1 ++ (l.filter (isSkipped files)).map Prod.fst,
       acc.2.2.2 ++ (l.filter (isEmptyStat files)).map Prod.fst) := by
    intro l
    induction l with
    | nil => intro acc; simp
    | cons p l ih =>
      intro acc
      rw [List.foldl_cons]
      cases hl : load_stat_for_year (files p.1) p.2 with
      | error e =>
        have h1 : loadedFrame files p = none := by simp [loadedFrame, hl]
        have h2 : isLoaded files p = false := by simp [isLoaded, hl]
        have h3 : isSkipped files p = true := by simp [isSkipped, hl]
        have h4 : isEmptyStat files p = false := by simp [isEmptyStat, hl]
        rw [ih]
        simp [List.filterMap_cons, List.filter_cons, h1, h2, h3, h4]
      | ok o =>
        cases o with
        | none =>
          have h1 : loadedFrame files p = none := by simp [loadedFrame, hl]
          have h2 : isLoaded files p = false := by simp [isLoaded, hl]
          have h3 : isSkipped files p = false := by simp [isSkipped, hl]
          have h4 : isEmptyStat files p = true := by simp [isEmptyStat, hl]
          rw [ih]
          simp [List.filterMap_cons, List.filter_cons, h1, h2, h3, h4]
        | some fr =>
          have h1 : loadedFrame files p = some fr := by simp [loadedFrame, hl]
          have h2 : isLoaded files p = true := by simp [isLoaded, hl]
          have h3 : isSkipped files p = false := by simp [isSkipped, hl]
          have h4 : isEmptyStat files p = false := by simp [isEmptyStat, hl]
          rw [ih]
          simp [List.filterMap_cons, List.filter_cons, h1, h2, h3, h4]
  rw [general STAT_COLUMNS ([], [], [], [])]
  simp

theorem loadedFrame_col (files : TidyFiles) (p : String × String)
    (fr : LoadedFrame) (h : loadedFrame files p = some fr) : fr.col = p.2 := by
  unfold loadedFrame at h
  cases hl : load_stat_for_year (files p.1) p.2 with
  | error e => rw [hl] at h; simp at h
  | ok o =>
    cases o with
    | none => rw [hl] at h; simp at h
    | some fr' =>
      rw [hl] at h
      simp only [Option.some.injEq] at h
      subst h
      unfold load_stat_for_year at hl
      cases hf : files p.1 with
      | none => rw [hf] at hl; simp at hl
      | some file =>
        rw [hf] at hl
        split at hl
        · simp at hl
        · split at hl
          · simp at hl
          · split at hl
            · simp at hl
            · rename_i f hne hc1 hc2
              by_cases hre : (List.filterMap
                  (fun r => Option.map (fun n => (r.1, n, r.2.2)) r.2.1)
                  f.rows).isEmpty = true
              · simp [hre] at hl
                split at hl <;> simp at hl
              · simp [hre] at hl
                by_cases hmem : p.2 ∈ f.cols
                · simp [hmem] at hl
                  rw [← hl]
                · simp [hmem] at hl

theorem frames_cols_eq (files : TidyFiles) :
    ((collectFrames files).1).map (·.col) =
      (STAT_COLUMNS.filter (isLoaded files)).map Prod.snd := by
  rw [collectFrames_eq]
  have general : ∀ l : List (String × String),
      (l.filterMap (loadedFrame files)).map (·.col) =
        (l.filter (isLoaded files)).map Prod.snd := by
    intro l
    induction l with
    | nil => rfl
    | cons p l ih =>
      rw [List.filterMap_cons, List.filter_cons]
      cases hl : loadedFrame files p with
      | none =>
        have h2 : isLoaded files p = false := by
          unfold loadedFrame at hl
          unfold isLoaded
          cases hload : load_stat_for_year (files p.1) p.2 with
          | error e => rfl
          | ok o =>
            cases o with
            | none => rfl
            | some fr => rw [hload] at hl; simp at hl
        rw [h2]
        simpa using ih
      | some fr =>
        have h2 : isLoaded files p = true := by
          unfold loadedFrame at hl
          unfold isLoaded
          cases hload : load_stat_for_year (files p.1) p.2 with
          | error e => rw [hload] at hl; simp at hl
          | ok o =>
            cases o with
            | none => rw [hload] at hl; simp at hl
            | some fr' => rfl
        rw [h2]
        simp only [List.map_cons, if_true, ih]
        rw [loadedFrame_col files p fr hl]
  exact general STAT_COLUMNS

end Golf

namespace Golf

theorem reduceMerge_none_iff (frames : List LoadedFrame) :
    reduceMerge frames = none ↔ frames = [] := by
  cases frames <;> simp [reduceMerge]

theorem loadedFrame_none_iff (files : TidyFiles) (p : String × String) :
    loadedFrame files p = none ↔
      ¬∃ fr, load_stat_for_year (files p.1) p.2 = .ok (some fr) := by
  unfold loadedFrame
  cases hl : load_stat_for_year (files p.1) p.2 with
  | error e => simp
  | ok o => cases o <;> simp

theorem isLoaded_iff (files : TidyFiles) (p : String × String) :
    isLoaded files p = true ↔
      ∃ fr, load_stat_for_year (files p.1) p.2 = .ok (some fr) := by
  unfold isLoaded
  cases hl : load_stat_for_year (files p.1) p.2 with
  | error e => simp
  | ok o => cases o <;> simp

/-- C6: `build_for_year` raises exactly when zero configured stats yield
usable data (every stat's file is missing, fails to load, or is empty
after filtering), and the raised error carries the year, the list of
skipped stats (load raised) and the list of empty stats (no data),
each in configuration order. -/
theorem build_error_iff (files : TidyFiles) (year : Int) :
    ((∃ e, build_for_year files year = .error e) ↔
      ∀ p ∈ STAT_COLUMNS,
        ¬∃ fr, load_stat_for_year (files p.1) p.2 = .ok (some fr)) ∧
    ∀ e, build_for_year files year = .error e →
      e.year = year ∧
      e.skipped = (STAT_COLUMNS.filter (isSkipped files)).map Prod.fst ∧
      e.empty = (STAT_COLUMNS.filter (isEmptyStat files)).map Prod.fst := by
  have hframes : (collectFrames files).1 = STAT_COLUMNS.filterMap (loadedFrame files) := by
    rw [collectFrames_eq]
  constructor
  · constructor
    · rintro ⟨e, he⟩ p hp
      have h1 := (build_error_elim files year e he).1
      rw [reduceMerge_none_iff, hframes] at h1
      rw [← loadedFrame_none_iff]
      rcases List.filterMap_eq_nil_iff.mp h1 p hp with h2
      exact h2
    · intro hall
      have h1 : (collectFrames files).1 = [] := by
        rw [hframes]
        rw [List.filterMap_eq_nil_iff]
        intro p hp
        rw [loadedFrame_none_iff]
        exact hall p hp
      refine ⟨⟨year, (collectFrames files).2.2.1, (collectFrames files).2.2.2⟩, ?_⟩
      simp only [build_for_year]
      rw [h1]
      rfl
  · intro e he
    have h2 := (build_error_elim files year e he).2
    rw [collectFrames_eq] at h2
    rw [h2]
    exact ⟨rfl, rfl, rfl⟩

/-- Witness for C6: with every tidy file missing, `build_for_year`
raises, and the error lists all eleven configured stats as skipped. -/
theorem build_error_iff_witness :
    (∃ e, build_for_year (fun _ => none) 2024 = .error e) ∧
    ∀ e, build_for_year (fun _ => none) 2024 = .error e →
      e.skipped = ["sg_total", "sg_ott", "sg_app", "sg_arg", "sg_putt",
        "driving_distance", "driving_accuracy", "greens_in_regulation",
        "scoring_average", "money_earned", "fedex_rank"] :=
  ⟨(build_error_iff (fun _ => none) 2024).1.mpr
      (fun p _ h => by
        rcases h with ⟨fr, hfr⟩
        simp [load_stat_for_year] at hfr),
   fun e he => by
     rw [((build_error_iff (fun _ => none) 2024).2 e he).2.1]
     with_unfolding_all rfl⟩

end Golf

namespace Golf

theorem stat_cols_nodup : (STAT_COLUMNS.map Prod.snd).Nodup := by decide

theorem stat_cols_facts : ∀ p ∈ STAT_COLUMNS,
    p.2 ∈ expectedValueCols ∧ p.2 ≠ "sg_tee_to_green" := by decide

theorem not_loaded_col_not_in_frames (files : TidyFiles) (p : String × String)
    (hp : p ∈ STAT_COLUMNS)
    (hnl : ¬∃ fr, load_stat_for_year (files p.1) p.2 = .ok (some fr)) :
    p.2 ∉ ((collectFrames files).1).map (·.col) := by
  rw [frames_cols_eq]
  intro hmem
  rcases List.mem_map.mp hmem with ⟨q, hq, hsnd⟩
  rcases List.mem_filter.mp hq with ⟨hqsc, hqload⟩
  have hpq : q = p := List.inj_on_of_nodup_map stat_cols_nodup hqsc hp hsnd
  subst hpq
  exact hnl ((isLoaded_iff files q).mp hqload)

theorem merged_row_lookup_none (merged : Merged) (frames : List LoadedFrame)
    (hr : reduceMerge frames = some merged) (c : String)
    (hc : c ∉ frames.map (·.col)) (httg : c ≠ "sg_tee_to_green") :
    ∀ r ∈ (addTeeToGreen merged).rows, lookupCell r.vals c = none := by
  intro r hrr
  have hvk := ttg_valskeys merged (reduceMerge_valskeys frames merged hr) r hrr
  apply lookup_not_mem
  rw [hvk]
  by_cases hcond : "sg_off_the_tee" ∈ merged.cols ∧ "sg_approach" ∈ merged.cols ∧
      "sg_around_green" ∈ merged.cols
  · rw [(ttg_cond_rows merged hcond).1]
    rw [reduceMerge_cols frames merged hr]
    intro hmem
    rcases List.mem_append.mp hmem with h | h
    · exact hc h
    · exact httg (by simpa using h)
  · rw [ttg_not_cond merged hcond]
    rw [reduceMerge_cols frames merged hr]
    exact hc

/-- C4: every successful `build_for_year` output carries exactly the
fixed 14-column schema, in order, whatever stats were available; a
stat column with no loaded frame is back-filled with nulls in every
row; and the all-years master frame carries the same schema. -/
theorem build_schema_fixed (files : TidyFiles) (year : Int) (m : Merged)
    (h : build_for_year files year = .ok m) :
    m.allCols = expected_cols ∧
    (∀ p ∈ STAT_COLUMNS,
      (¬∃ fr, load_stat_for_year (files p.1) p.2 = .ok (some fr)) →
      ∀ r ∈ m.rows, lookupCell r.vals p.2 = none) ∧
    ∀ (yfiles : YearFiles) (years : List Int) (M : Merged),
      masterAllYears yfiles years = .ok M → M.allCols = expected_cols := by
  rcases build_ok_elim files year m h with ⟨merged, hred, hmfin⟩
  refine ⟨?_, ?_, ?_⟩
  · rw [hmfin]
    rfl
  · intro p hp hnl r hrm
    rw [hmfin] at hrm
    rcases mem_finalize_elim merged r hrm with ⟨r₀, hr₀, hreq⟩
    subst hreq
    show lookupCell (expectedValueCols.map fun c => (c, lookupCell r₀.vals c)) p.2 = none
    rw [lookup_map_fn _ _ _ (stat_cols_facts p hp).1]
    exact merged_row_lookup_none merged (collectFrames files).1 hred p.2
      (not_loaded_col_not_in_frames files p hp hnl) (stat_cols_facts p hp).2 r₀ hr₀
  · intro yfiles years M hM
    unfold masterAllYears at hM
    cases hrun : runYears yfiles (sortedYears years) with
    | error e => rw [hrun] at hM; simp at hM
    | ok ms =>
      rw [hrun] at hM
      simp only [Except.ok.injEq] at hM
      rw [← hM]
      rfl

/-- Witness for C4: one stat file with one row; the output frame has
exactly the 14 expected columns. -/
theorem build_schema_fixed_witness :
    Merged.allCols
      ⟨["sg_total", "sg_off_the_tee", "sg_approach", "sg_around_green",
        "sg_putting", "driving_distance", "driving_accuracy",
        "greens_in_regulation", "scoring_average", "money_earned",
        "final_season_rank", "sg_tee_to_green"],
       [⟨2024, "Alice",
         [("sg_total", some 1), ("sg_off_the_tee", none), ("sg_approach", none),
          ("sg_around_green", none), ("sg_putting", none),
          ("driving_distance", none), ("driving_accuracy", none),
          ("greens_in_regulation", none), ("scoring_average", none),
          ("money_earned", none), ("final_season_rank", none),
          ("sg_tee_to_green", none)]⟩]⟩ = expected_cols :=
  (build_schema_fixed
    (fun s => if s = "sg_total" then
      some ⟨["year", "player_name", "sg_total"], [(2024, some "Alice", some 1)]⟩
      else none) 2024 _ (by with_unfolding_all rfl)).1

end Golf

namespace Golf

theorem loadedFrame_some (files : TidyFiles) (p : String × String)
    (fr : LoadedFrame) (h : load_stat_for_year (files p.1) p.2 = .ok (some fr)) :
    loadedFrame files p = some fr := by
  unfold loadedFrame
  rw [h]

/-- C5: when at least one configured stat loads with data and at least
one stat's tidy file is missing, `build_for_year` still succeeds, the
output has a row for every (year, player) of every loaded frame, and
every missing stat's column is null in every output row. -/
theorem build_partial_stats (files : TidyFiles) (year : Int)
    (hpresent : ∃ p ∈ STAT_COLUMNS,
      ∃ fr, load_stat_for_year (files p.1) p.2 = .ok (some fr))
    (hmissing : ∃ q ∈ STAT_COLUMNS, files q.1 = none) :
    ∃ m, build_for_year files year = .ok m ∧
      (∀ fr ∈ (collectFrames files).1, ∀ r ∈ fr.rows,
        ∃ row ∈ m.rows, row.year = r.1 ∧ row.player_name = r.2.1) ∧
      ∀ q ∈ STAT_COLUMNS, files q.1 = none →
        ∀ row ∈ m.rows, lookupCell row.vals q.2 = none := by
  rcases hpresent with ⟨p, hp, fr, hfr⟩
  have hfrmem : fr ∈ (collectFrames files).1 := by
    rw [collectFrames_eq]
    exact List.mem_filterMap.mpr ⟨p, hp, loadedFrame_some files p fr hfr⟩
  cases hframes : (collectFrames files).1 with
  | nil => rw [hframes] at hfrmem; simp at hfrmem
  | cons f0 fs =>
    have hred : reduceMerge (collectFrames files).1 =
        some (fs.foldl mergeOuter (initMerged f0)) := by
      rw [hframes]
      rfl
    have hbuild : build_for_year files year =
        .ok (finalize (fs.foldl mergeOuter (initMerged f0))) := by
      simp only [build_for_year]
      rw [hred]
    set merged := fs.foldl mergeOuter (initMerged f0) with hmerged
    have hred2 : reduceMerge (f0 :: fs) = some merged := rfl
    refine ⟨finalize merged, hbuild, ?_, ?_⟩
    · intro g hg r hr
      have hkey := reduceMerge_keymem (f0 :: fs) merged hred2 g hg r hr
      have hkeyfin : (r.1, r.2.1) ∈ (finalize merged).rows.map keyOf :=
        ((finalize_keys_perm merged).mem_iff).mpr hkey
      rcases List.mem_map.mp hkeyfin with ⟨row, hrow, hkeq⟩
      refine ⟨row, hrow, ?_, ?_⟩
      · exact congrArg Prod.fst hkeq
      · exact congrArg Prod.snd hkeq
    · intro q hq hqnone row hrow
      have hnl : ¬∃ g, load_stat_for_year (files q.1) q.2 = .ok (some g) := by
        rintro ⟨g, hg⟩
        rw [hqnone] at hg
        simp [load_stat_for_year] at hg
      rcases mem_finalize_elim merged row hrow with ⟨r₀, hr₀, hreq⟩
      subst hreq
      show lookupCell (expectedValueCols.map fun c => (c, lookupCell r₀.vals c)) q.2 = none
      rw [lookup_map_fn _ _ _ (stat_cols_facts q hq).1]
      have hnotin := not_loaded_col_not_in_frames files q hq hnl
      rw [hframes] at hnotin
      exact merged_row_lookup_none merged (f0 :: fs) hred2 q.2
        hnotin (stat_cols_facts q hq).2 r₀ hr₀

end Golf

namespace Golf

/-- Witness for C5: `sg_total` present with one row, all other stat
files missing; the year still builds. -/
theorem build_partial_stats_witness :
    ∃ m, build_for_year (fun s => if s = "sg_total" then
        some ⟨["year", "player_name", "sg_total"], [(2024, some "Alice", some 1)]⟩
        else none) 2024 = .ok m ∧
      (∀ fr ∈ (collectFrames (fun s => if s = "sg_total" then
          some ⟨["year", "player_name", "sg_total"], [(2024, some "Alice", some 1)]⟩
          else none)).1, ∀ r ∈ fr.rows,
        ∃ row ∈ m.rows, row.year = r.1 ∧ row.player_name = r.2.1) ∧
      ∀ q ∈ STAT_COLUMNS, (fun s => if s = "sg_total" then
          some (⟨["year", "player_name", "sg_total"],
            [(2024, some "Alice", some 1)]⟩ : StoredTidy)
          else none) q.1 = none →
        ∀ row ∈ m.rows, lookupCell row.vals q.2 = none :=
  build_partial_stats _ 2024
    ⟨("sg_total", "sg_total"), by decide,
      ⟨"sg_total", [(2024, "Alice", some 1)]⟩, by with_unfolding_all rfl⟩
    ⟨("sg_ott", "sg_off_the_tee"), by decide, by with_unfolding_all rfl⟩

end Golf

namespace Golf

theorem frames_col_ne_ttg (files : TidyFiles) :
    "sg_tee_to_green" ∉ ((collectFrames files).1).map (·.col) := by
  rw [frames_cols_eq]
  intro h
  rcases List.mem_map.mp h with ⟨q, hq, hsnd⟩
  have hqsc := (List.mem_filter.mp hq).1
  exact (stat_cols_facts q hqsc).2 hsnd

/-- C3: in every successful `build_for_year` output, every row with all
four strokes-gained fields non-null satisfies
`|sg_tee_to_green - (sg_off_the_tee + sg_approach + sg_around_green)| < 1e-6`
(exactly zero in exact arithmetic, since the derived column is the
row-wise sum); and when any of the three component stats fails to load,
the derived column is not computed — every row carries null there. -/
theorem tee_to_green_sum (files : TidyFiles) (year : Int) (m : Merged)
    (h : build_for_year files year = .ok m) :
    (∀ r ∈ m.rows, ∀ a b c tg : ℚ,
      lookupCell r.vals "sg_off_the_tee" = some a →
      lookupCell r.vals "sg_approach" = some b →
      lookupCell r.vals "sg_around_green" = some c →
      lookupCell r.vals "sg_tee_to_green" = some tg →
      |tg - (a + b + c)| < 1 / 1000000) ∧
    ((¬((∃ f1, load_stat_for_year (files "sg_ott") "sg_off_the_tee" = .ok (some f1)) ∧
        (∃ f2, load_stat_for_year (files "sg_app") "sg_approach" = .ok (some f2)) ∧
        (∃ f3, load_stat_for_year (files "sg_arg") "sg_around_green" = .ok (some f3)))) →
      ∀ r ∈ m.rows, lookupCell r.vals "sg_tee_to_green" = none) := by
  rcases build_ok_elim files year m h with ⟨merged, hred, hmfin⟩
  have hvk := reduceMerge_valskeys _ merged hred
  have hcols := reduceMerge_cols _ merged hred
  have httgnot : "sg_tee_to_green" ∉ merged.cols := by
    rw [hcols]
    exact frames_col_ne_ttg files
  constructor
  · intro r hrm a b c tg ha hb hc htg
    rw [hmfin] at hrm
    rcases mem_finalize_elim merged r hrm with ⟨r₀, hr₀, hreq⟩
    subst hreq
    have hproj : ∀ col ∈ expectedValueCols,
        lookupCell (expectedValueCols.map fun c => (c, lookupCell r₀.vals c)) col =
          lookupCell r₀.vals col := fun col hcol => lookup_map_fn _ _ _ hcol
    rw [show ({ r₀ with vals := expectedValueCols.map fun c =>
        (c, lookupCell r₀.vals c) } : MRow).vals =
      expectedValueCols.map fun c => (c, lookupCell r₀.vals c) from rfl] at ha hb hc htg
    rw [hproj "sg_off_the_tee" (by decide)] at ha
    rw [hproj "sg_approach" (by decide)] at hb
    rw [hproj "sg_around_green" (by decide)] at hc
    rw [hproj "sg_tee_to_green" (by decide)] at htg
    by_cases hcond : "sg_off_the_tee" ∈ merged.cols ∧ "sg_approach" ∈ merged.cols ∧
        "sg_around_green" ∈ merged.cols
    · rw [(ttg_cond_rows merged hcond).2] at hr₀
      rcases List.mem_map.mp hr₀ with ⟨r₁, hr₁, hr₀eq⟩
      subst hr₀eq
      rw [show ({ r₁ with vals := r₁.vals ++
          [("sg_tee_to_green",
            optAdd3 (lookupCell r₁.vals "sg_off_the_tee")
              (lookupCell r₁.vals "sg_approach")
              (lookupCell r₁.vals "sg_around_green"))] } : MRow).vals =
        r₁.vals ++ [("sg_tee_to_green",
            optAdd3 (lookupCell r₁.vals "sg_off_the_tee")
              (lookupCell r₁.vals "sg_approach")
              (lookupCell r₁.vals "sg_around_green"))] from rfl] at ha hb hc htg
      rw [lookup_snoc_ne _ _ _ _ (by decide)] at ha
      rw [lookup_snoc_ne _ _ _ _ (by decide)] at hb
      rw [lookup_snoc_ne _ _ _ _ (by decide)] at hc
      rw [lookup_snoc_self _ _ _ (by rw [hvk r₁ hr₁]; exact httgnot)] at htg
      rw [ha, hb, hc] at htg
      unfold optAdd3 at htg
      simp only [Option.some.injEq] at htg
      rw [← htg]
      simp [sub_self]
    · rw [ttg_not_cond merged hcond] at hr₀
      rw [lookup_not_mem _ _ (by rw [hvk r₀ hr₀]; exact httgnot)] at htg
      simp at htg
  · intro hnotall r hrm
    have hcondF : ¬("sg_off_the_tee" ∈ merged.cols ∧ "sg_approach" ∈ merged.cols ∧
        "sg_around_green" ∈ merged.cols) := by
      intro hcond
      apply hnotall
      refine ⟨?_, ?_, ?_⟩
      · by_contra hno
        exact not_loaded_col_not_in_frames files ("sg_ott", "sg_off_the_tee")
          (by decide) hno (by rw [← hcols]; exact hcond.1)
      · by_contra hno
        exact not_loaded_col_not_in_frames files ("sg_app", "sg_approach")
          (by decide) hno (by rw [← hcols]; exact hcond.2.1)
      · by_contra hno
        exact not_loaded_col_not_in_frames files ("sg_arg", "sg_around_green")
          (by decide) hno (by rw [← hcols]; exact hcond.2.2)
    rw [hmfin] at hrm
    rcases mem_finalize_elim merged r hrm with ⟨r₀, hr₀, hreq⟩
    subst hreq
    show lookupCell (expectedValueCols.map fun c => (c, lookupCell r₀.vals c))
        "sg_tee_to_green" = none
    rw [lookup_map_fn _ _ _ (by decide)]
    rw [ttg_not_cond merged hcondF] at hr₀
    exact lookup_not_mem _ _ (by rw [hvk r₀ hr₀]; exact httgnot)

end Golf

namespace Golf

/-- Witness for C3: three component stats for one player with values
1, 2 and 3; the derived tee-to-green value is 6 and the difference is
below the tolerance. -/
theorem tee_to_green_sum_witness :
    |(6 : ℚ) - (1 + 2 + 3)| < 1 / 1000000 :=
  (tee_to_green_sum (fun s =>
      if s = "sg_ott" then
        some ⟨["year", "player_name", "sg_off_the_tee"], [(2024, some "Alice", some 1)]⟩
      else if s = "sg_app" then
        some ⟨["year", "player_name", "sg_approach"], [(2024, some "Alice", some 2)]⟩
      else if s = "sg_arg" then
        some ⟨["year", "player_name", "sg_around_green"], [(2024, some "Alice", some 3)]⟩
      else none) 2024
    ⟨["sg_total", "sg_off_the_tee", "sg_approach", "sg_around_green",
      "sg_putting", "driving_distance", "driving_accuracy",
      "greens_in_regulation", "scoring_average", "money_earned",
      "final_season_rank", "sg_tee_to_green"],
     [⟨2024, "Alice",
       [("sg_total", none), ("sg_off_the_tee", some 1), ("sg_approach", some 2),
        ("sg_around_green", some 3), ("sg_putting", none),
        ("driving_distance", none), ("driving_accuracy", none),
        ("greens_in_regulation", none), ("scoring_average", none),
        ("money_earned", none), ("final_season_rank", none),
        ("sg_tee_to_green", some 6)]⟩]⟩
    (by with_unfolding_all rfl)).1
    ⟨2024, "Alice",
      [("sg_total", none), ("sg_off_the_tee", some 1), ("sg_approach", some 2),
       ("sg_around_green", some 3), ("sg_putting", none),
       ("driving_distance", none), ("driving_accuracy", none),
       ("greens_in_regulation", none), ("scoring_average", none),
       ("money_earned", none), ("final_season_rank", none),
       ("sg_tee_to_green", some 6)]⟩
    (List.mem_singleton.mpr rfl) 1 2 3 6
    (by with_unfolding_all rfl) (by with_unfolding_all rfl)
    (by with_unfolding_all rfl) (by with_unfolding_all rfl)

end Golf

namespace Golf

theorem runYears_ok_elim (files : YearFiles) : ∀ (ys : List Int) (ms : List Merged),
    runYears files ys = .ok ms →
    (∀ y ∈ ys, ∃ m, build_for_year (files y) y = .ok m) ∧
    ms.map Merged.rows = ys.map (yearRows files)
  | [], ms, h => by
    simp only [runYears, Except.ok.injEq] at h
    subst h
    exact ⟨by simp, rfl⟩
  | y :: ys, ms, h => by
    rw [runYears] at h
    cases hb : build_for_year (files y) y with
    | error e => rw [hb] at h; simp at h
    | ok m =>
      rw [hb] at h
      cases hrun : runYears files ys with
      | error e => rw [hrun] at h; simp at h
      | ok ms' =>
        rw [hrun] at h
        simp only [Except.ok.injEq] at h
        subst h
        have ih := runYears_ok_elim files ys ms' hrun
        refine ⟨?_, ?_⟩
        · intro z hz
          rcases List.mem_cons.mp hz with rfl | hz
          · exact ⟨m, hb⟩
          · exact ih.1 z hz
        · rw [List.map_cons, List.map_cons, ih.2]
          have : yearRows files y = m.rows := by
            unfold yearRows
            rw [hb]
          rw [this]

theorem mem_sortedYears (years : List Int) (y : Int) :
    y ∈ sortedYears years ↔ y ∈ years := by
  unfold sortedYears
  rw [(List.perm_insertionSort _ _).mem_iff, List.mem_dedup]

/-- C9: on success, the all-years master's rows are exactly the
concatenation of the per-year frames' rows, years taken in ascending
sorted order (duplicated year tokens collapsed), with each year's
internal row order preserved; every listed year built successfully. -/
theorem master_is_concat (files : YearFiles) (years : List Int) (M : Merged)
    (h : masterAllYears files years = .ok M) :
    (∀ y ∈ sortedYears years, ∃ m, build_for_year (files y) y = .ok m) ∧
    M.rows = ((sortedYears years).map (yearRows files)).flatten ∧
    (sortedYears years).Sorted (· ≤ ·) ∧
    ∀ y, y ∈ sortedYears years ↔ y ∈ years := by
  unfold masterAllYears at h
  cases hrun : runYears files (sortedYears years) with
  | error e => rw [hrun] at h; simp at h
  | ok ms =>
    rw [hrun] at h
    simp only [Except.ok.injEq] at h
    subst h
    have he := runYears_ok_elim files (sortedYears years) ms hrun
    refine ⟨he.1, ?_, ?_, fun y => mem_sortedYears years y⟩
    · show (ms.map Merged.rows).flatten = _
      rw [he.2]
    · unfold sortedYears
      exact List.sorted_insertionSort _ _

/-- Witness for C9: a single year with a single one-row stat; the
master's rows are the concatenation of that year's rows. -/
theorem master_is_concat_witness :
    (⟨expectedValueCols,
      [⟨2024, "Alice",
        [("sg_total", some 1), ("sg_off_the_tee", none), ("sg_approach", none),
         ("sg_around_green", none), ("sg_putting", none),
         ("driving_distance", none), ("driving_accuracy", none),
         ("greens_in_regulation", none), ("scoring_average", none),
         ("money_earned", none), ("final_season_rank", none),
         ("sg_tee_to_green", none)]⟩]⟩ : Merged).rows =
      ((sortedYears [2024]).map (yearRows (fun _ s =>
        if s = "sg_total" then
          some ⟨["year", "player_name", "sg_total"], [(2024, some "Alice", some 1)]⟩
        else none))).flatten :=
  (master_is_concat (fun _ s =>
      if s = "sg_total" then
        some ⟨["year", "player_name", "sg_total"], [(2024, some "Alice", some 1)]⟩
      else none) [2024] _ (by with_unfolding_all rfl)).2.1

end Golf

namespace Golf

theorem parse_names_nodup (s : String) (y : Int) (t : RawTable)
    (rows : List TidyRow) (h : parse_one_file_core s y t = .ok rows) :
    (rows.map TidyRow.player_name).Nodup := by
  unfold parse_one_file_core at h
  cases hspec : lookupSpec s <;> rw [hspec] at h
  · simp at h
  cases hp : find_player_name_column t <;> rw [hp] at h
  · simp at h
  cases hv : find_value_column t s <;> rw [hv] at h
  · simp at h
  simp only [Except.ok.injEq] at h
  subst h
  exact nodup_dropDupNames _

theorem csvReadStr_some (s n : String) (h : csvReadStr s = some n) : n = s := by
  unfold csvReadStr at h
  split at h
  · simp at h
  · simp only [Option.some.injEq] at h
    exact h.symm

theorem load_rows_elim (file? : Option StoredTidy) (col_name : String)
    (fr : LoadedFrame) (h : load_stat_for_year file? col_name = .ok (some fr)) :
    ∃ file, file? = some file ∧
      fr.rows = file.rows.filterMap fun r => r.2.1.map fun n => (r.1, n, r.2.2) := by
  unfold load_stat_for_year at h
  cases hf : file? with
  | none => rw [hf] at h; simp at h
  | some file =>
    rw [hf] at h
    refine ⟨file, rfl, ?_⟩
    split at h
    · simp at h
    · split at h
      · simp at h
      · split at h
        · simp at h
        · rename_i fq f heqf hne hc1
          have hfe : file = f := by injection heqf
          subst hfe
          by_cases hmem : col_name ∈ file.cols
          · by_cases hre : (file.rows.filterMap fun r =>
                r.2.1.map fun n => (r.1, n, r.2.2)).isEmpty = true
            · simp [hmem, hre] at h
            · simp [hmem, hre] at h
              rw [← h]
          · simp [hmem] at h

theorem stored_loaded_keys_nodup : ∀ (rows : List TidyRow),
    (rows.map TidyRow.player_name).Nodup →
    ((rows.filterMap fun r => (csvReadStr r.player_name).map
        fun n => (r.year, n, (some r.value : Cell))).map fun q => (q.1, q.2.1)).Nodup
  | [], _ => by simp
  | r :: rows, hn => by
    rw [List.map_cons, List.nodup_cons] at hn
    rw [List.filterMap_cons]
    cases hc : csvReadStr r.player_name with
    | none =>
      simp only [Option.map_none']
      exact stored_loaded_keys_nodup rows hn.2
    | some n =>
      have hns : n = r.player_name := csvReadStr_some _ _ hc
      simp only [Option.map_some', List.map_cons, List.nodup_cons]
      refine ⟨?_, stored_loaded_keys_nodup rows hn.2⟩
      intro hmem
      rcases List.mem_map.mp hmem with ⟨q, hq, hkq⟩
      rcases List.mem_filterMap.mp hq with ⟨r', hr', hgr'⟩
      cases hc' : csvReadStr r'.player_name with
      | none => rw [hc'] at hgr'; simp at hgr'
      | some n' =>
        rw [hc'] at hgr'
        simp only [Option.map_some', Option.some.injEq] at hgr'
        have hn's : n' = r'.player_name := csvReadStr_some _ _ hc'
        have : q.2.1 = n' := by rw [← hgr']
        have hnn : n = n' := by
          have := congrArg Prod.snd hkq
          simp only at this
          rw [← this, ‹q.2.1 = n'›]
        apply hn.1
        rw [← hns, hnn, hn's]
        exact List.mem_map.mpr ⟨r', hr', rfl⟩

end Golf

namespace Golf

theorem frames_wellformed (files : TidyFiles)
    (hsrc : ∀ s f, files s = some f → ∃ (oc : String) (y : Int) (t : RawTable)
      (rows : List TidyRow), parse_one_file_core s y t = .ok rows ∧
        f = storedOfTidy oc rows) :
    (∀ fr ∈ (collectFrames files).1, (fr.rows.map fun r => (r.1, r.2.1)).Nodup) ∧
    (((collectFrames files).1).map (·.col)).Nodup := by
  constructor
  · intro fr hfr
    rw [collectFrames_eq] at hfr
    rcases List.mem_filterMap.mp hfr with ⟨p, hp, hload⟩
    have hload' : load_stat_for_year (files p.1) p.2 = .ok (some fr) := by
      unfold loadedFrame at hload
      cases hl : load_stat_for_year (files p.1) p.2 with
      | error e => rw [hl] at hload; simp at hload
      | ok o =>
        cases o with
        | none => rw [hl] at hload; simp at hload
        | some fr' =>
          rw [hl] at hload
          simp only [Option.some.injEq] at hload
          rw [hload]
    rcases load_rows_elim (files p.1) p.2 fr hload' with ⟨file, hfile, hrows⟩
    rcases hsrc p.1 file hfile with ⟨oc, y, t, rows, hparse, hfeq⟩
    subst hfeq
    rw [show (storedOfTidy oc rows).rows = rows.map fun r =>
        (r.year, csvReadStr r.player_name, (some r.value : Cell)) from rfl] at hrows
    rw [List.filterMap_map] at hrows
    rw [show ((fun r : Int × Option String × Cell =>
          r.2.1.map fun n => (r.1, n, r.2.2)) ∘
        (fun r : TidyRow =>
          (r.year, csvReadStr r.player_name, (some r.value : Cell)))) =
      fun r : TidyRow => (csvReadStr r.player_name).map
        fun n => (r.year, n, (some r.value : Cell)) from rfl] at hrows
    rw [hrows]
    exact stored_loaded_keys_nodup rows (parse_names_nodup p.1 y t rows hparse)
  · rw [frames_cols_eq]
    exact ((List.filter_sublist STAT_COLUMNS).map Prod.snd).nodup stat_cols_nodup

/-- C7: when every stored tidy file is one written from a successful
`parse_one_file` run, a successful `build_for_year` output has pairwise
distinct (year, player_name) keys; every (year, player) of every loaded
frame appears as a row; and a row whose key is absent from some loaded
stat's frame carries null in that stat's column — the player is present
with a null, never dropped. -/
theorem merged_unique_players (files : TidyFiles) (year : Int) (m : Merged)
    (hsrc : ∀ s f, files s = some f → ∃ (oc : String) (y : Int) (t : RawTable)
      (rows : List TidyRow), parse_one_file_core s y t = .ok rows ∧
        f = storedOfTidy oc rows)
    (h : build_for_year files year = .ok m) :
    (m.rows.map keyOf).Nodup ∧
    (∀ p ∈ STAT_COLUMNS, ∀ fr, load_stat_for_year (files p.1) p.2 = .ok (some fr) →
      ∀ r ∈ fr.rows, ∃ row ∈ m.rows, keyOf row = (r.1, r.2.1)) ∧
    ∀ p ∈ STAT_COLUMNS, ∀ fr, load_stat_for_year (files p.1) p.2 = .ok (some fr) →
      ∀ row ∈ m.rows, (¬∃ r ∈ fr.rows, (r.1, r.2.1) = keyOf row) →
        lookupCell row.vals p.2 = none := by
  rcases build_ok_elim files year m h with ⟨merged, hred, hmfin⟩
  have hwf := frames_wellformed files hsrc
  have hstrong := reduceMerge_strong (collectFrames files).1 merged hred hwf.1 hwf.2
  have hvk := reduceMerge_valskeys _ merged hred
  refine ⟨?_, ?_, ?_⟩
  · rw [hmfin]
    exact ((finalize_keys_perm merged).nodup_iff).mpr hstrong.2
  · intro p hp fr hfr r hr
    have hfrmem : fr ∈ (collectFrames files).1 := by
      rw [collectFrames_eq]
      exact List.mem_filterMap.mpr ⟨p, hp, loadedFrame_some files p fr hfr⟩
    have hkey := reduceMerge_keymem (collectFrames files).1 merged hred fr hfrmem r hr
    rw [hmfin]
    have hkeyfin : (r.1, r.2.1) ∈ (finalize merged).rows.map keyOf :=
      ((finalize_keys_perm merged).mem_iff).mpr hkey
    rcases List.mem_map.mp hkeyfin with ⟨row, hrow, hkeq⟩
    exact ⟨row, hrow, hkeq⟩
  · intro p hp fr hfr row hrowm hnokey
    have hfrmem : fr ∈ (collectFrames files).1 := by
      rw [collectFrames_eq]
      exact List.mem_filterMap.mpr ⟨p, hp, loadedFrame_some files p fr hfr⟩
    have hfrcol : fr.col = p.2 :=
      loadedFrame_col files p fr (loadedFrame_some files p fr hfr)
    rw [hmfin] at hrowm
    rcases mem_finalize_elim merged row hrowm with ⟨r₀, hr₀, hreq⟩
    subst hreq
    show lookupCell (expectedValueCols.map fun c => (c, lookupCell r₀.vals c)) p.2 = none
    rw [lookup_map_fn _ _ _ (stat_cols_facts p hp).1]
    have hfv : frameVal fr (keyOf r₀) = none := by
      unfold frameVal
      have : (fr.rows.find? fun r => (r.1, r.2.1) = keyOf r₀) = none := by
        rw [List.find?_eq_none]
        intro x hx hdec
        exact hnokey ⟨x, hx, by simpa using hdec⟩
      rw [this]
      rfl
    by_cases hcond : "sg_off_the_tee" ∈ merged.cols ∧ "sg_approach" ∈ merged.cols ∧
        "sg_around_green" ∈ merged.cols
    · rw [(ttg_cond_rows merged hcond).2] at hr₀
      rcases List.mem_map.mp hr₀ with ⟨r₁, hr₁, hr₀eq⟩
      subst hr₀eq
      show lookupCell (r₁.vals ++ [("sg_tee_to_green",
        optAdd3 (lookupCell r₁.vals "sg_off_the_tee")
          (lookupCell r₁.vals "sg_approach")
          (lookupCell r₁.vals "sg_around_green"))]) p.2 = none
      rw [lookup_snoc_ne _ _ _ _ (stat_cols_facts p hp).2]
      rw [← hfrcol]
      rw [hstrong.1 r₁ hr₁ fr hfrmem]
      rw [show keyOf r₁ = keyOf ({ r₁ with vals := r₁.vals ++ [("sg_tee_to_green",
        optAdd3 (lookupCell r₁.vals "sg_off_the_tee")
          (lookupCell r₁.vals "sg_approach")
          (lookupCell r₁.vals "sg_around_green"))]} : MRow) from rfl]
      exact hfv
    · rw [ttg_not_cond merged hcond] at hr₀
      rw [← hfrcol, hstrong.1 r₀ hr₀ fr hfrmem]
      exact hfv

end Golf

namespace Golf

/-- Witness for C7: a single tidy file written from a one-row parse
output; the merged year has pairwise distinct keys. -/
theorem merged_unique_players_witness :
    ((⟨["sg_total", "sg_off_the_tee", "sg_approach", "sg_around_green",
        "sg_putting", "driving_distance", "driving_accuracy",
        "greens_in_regulation", "scoring_average", "money_earned",
        "final_season_rank", "sg_tee_to_green"],
       [⟨2024, "Alice",
         [("sg_total", some 1), ("sg_off_the_tee", none), ("sg_approach", none),
          ("sg_around_green", none), ("sg_putting", none),
          ("driving_distance", none), ("driving_accuracy", none),
          ("greens_in_regulation", none), ("scoring_average", none),
          ("money_earned", none), ("final_season_rank", none),
          ("sg_tee_to_green", none)]⟩]⟩ : Merged).rows.map keyOf).Nodup :=
  (merged_unique_players
    (fun s => if s = "sg_total" then
      some ⟨["year", "player_name", "sg_total"], [(2024, some "Alice", some 1)]⟩
      else none) 2024 _
    (fun s f hf => by
      by_cases hs : s = "sg_total"
      · subst hs
        simp at hf
        refine ⟨"sg_total", 2024, ⟨["PLAYER", "AVG"], [[some "Alice", some "1"]]⟩,
          [⟨2024, "Alice", 1⟩], by with_unfolding_all rfl, ?_⟩
        subst hf
        with_unfolding_all rfl
      · simp [hs] at hf)
    (by with_unfolding_all rfl)).1

end Golf
